import Mathlib

/-
Verification of the ledger-scanning and wallet-state engine
(src/full-service/src/service/sync.rs) against its specification.

The engine's own logic (decode_amount, decode_subaddress_index,
decode_subaddress_and_key_image, sync_account_next_chunk, sync_all_accounts,
the webhook dispatcher iteration) is embedded from the source.  The wallet
store operations it calls (Account, Txo, TransactionLog, AssignedSubaddress
models) are not part of the provided sources; they are modelled from the
spec, section 4.3, as stated in their doc comments.  The cryptographic
kernel is external (spec section 2, item 3) and is supplied as a structure
of pure functions.
-/

set_option linter.unusedVariables false

namespace FullService

/-- Compressed Ristretto point bytes as stored on a TxOut. The `valid` flag
records whether `RistrettoPublic::try_from` succeeds on these bytes. -/
structure CompressedKey where
  bytes : Nat
  valid : Bool
deriving DecidableEq

/-- Embeds `RistrettoPublic::try_from(&bytes)`: decoding a compressed point
may fail, in which case the output is treated as not ours. -/
def ristrettoTryFrom (k : CompressedKey) : Option Nat :=
  if k.valid then some k.bytes else none

/-- Transaction output, with the fields the scan engine reads:
`public_key`, `target_key` and the masked amount (`none` when
`get_masked_amount` fails on this output). The TxOut itself stands for its
content digest (the Txo id). -/
structure TxOut where
  public_key : CompressedKey
  target_key : CompressedKey
  masked_amount : Option Nat
deriving DecidableEq

/-- Decoded amount: value and token id. -/
structure Amount where
  value : Nat
  token_id : Nat
deriving DecidableEq

/-- External cryptographic kernel (spec section 2, item 3): shared-secret
derivation, masked-amount decryption, subaddress spend key recovery,
one-time private key recovery, key images and subaddress spend private
derivation. All pure functions; the engine is verified for an arbitrary
kernel. -/
structure Crypto where
  sharedSecret : Nat → Nat → Nat
  getValue : Nat → Nat → Option (Amount × Nat)
  recoverSpendKey : Nat → Nat → Nat → Nat
  recoverOnetime : Nat → Nat → Nat → Nat
  keyImage : Nat → Nat
  subaddressSpendPrivate : Nat → Nat → Nat

/-- Serialized account key bytes; `decodes` records whether
`mc_util_serial::decode` succeeds on them. -/
structure KeyBlob where
  view_private_key : Nat
  spend_seed : Nat
  decodes : Bool
deriving DecidableEq

/-- Decoded full account key (view private key and spend material). -/
structure AccountKey where
  view_private_key : Nat
  spend_seed : Nat
deriving DecidableEq

/-- Decoded view-only account key. -/
structure ViewAccountKey where
  view_private_key : Nat
deriving DecidableEq

/-- Account row (spec section 3). -/
structure Account where
  id : String
  account_key : KeyBlob
  view_only : Bool
  first_block_index : Nat
  next_block_index : Nat
  resyncing : Bool
deriving DecidableEq

/-- AssignedSubaddress row (spec section 3). -/
structure AssignedSubaddress where
  account_id : String
  subaddress_index : Nat
  spend_public_key : Nat
  b58_address : String
deriving DecidableEq

/-- Txo row (spec section 3). `id` is the content digest of the output,
represented by the output itself. -/
structure Txo where
  id : TxOut
  account_id : String
  value : Nat
  token_id : Nat
  subaddress_index : Option Nat
  key_image : Option Nat
  received_block_index : Nat
  spent_block_index : Option Nat
  pending_tombstone_block_index : Option Nat
deriving DecidableEq

/-- TransactionLog status (spec section 3). -/
inductive TxStatus where
  | pending
  | succeeded
  | failed
deriving DecidableEq

/-- TransactionLog row (spec section 3), restricted to the fields the scan
engine touches. -/
structure TransactionLog where
  id : Nat
  input_txo_ids : List TxOut
  tombstone_block_index : Nat
  status : TxStatus
  finalized_block_index : Option Nat
deriving DecidableEq

/-- Wallet store error kinds the engine distinguishes: a missing row versus
any other database failure. -/
inductive WalletDbError where
  | notFound
  | diesel
deriving DecidableEq

/-- Wallet store state: the four tables of spec section 6, plus two injected
fault switches used to express transient database failures
(`subaddress_lookup_fault` makes the subaddress reverse lookup fail,
`list_all_fault` makes `Account::list_all` fail). -/
structure WalletState where
  accounts : List Account
  subaddresses : List AssignedSubaddress
  txos : List Txo
  tx_logs : List TransactionLog
  subaddress_lookup_fault : Option WalletDbError
  list_all_fault : Bool
deriving DecidableEq

/-- Modelled from the spec: `Account::get(id)` "returns current row or
NotFound" (section 4.3). Not among the provided sources. -/
def Account.get (account_id_hex : String) (s : WalletState) : Except WalletDbError Account :=
  match s.accounts.find? (fun a => a.id == account_id_hex) with
  | some a => .ok a
  | none => .error .notFound

/-- Modelled from the spec: `Account::list_all()` returns a "snapshot of all
accounts" (section 4.3); the injected fault stands for a database failure.
Not among the provided sources. -/
def Account.list_all (s : WalletState) : Except WalletDbError (List Account) :=
  if s.list_all_fault then .error .diesel else .ok s.accounts

/-- Modelled from the spec: `Account::update_next_block_index(n)` sets the
sync cursor of the account row (section 4.3). Not among the provided
sources. -/
def Account.update_next_block_index (s : WalletState) (account_id_hex : String)
    (n : Nat) : WalletState :=
  { s with accounts := s.accounts.map (fun a =>
      if a.id = account_id_hex then { a with next_block_index := n } else a) }

/-- Modelled from the spec: `update_resyncing` sets the resyncing overlay
flag on the account row (section 3). Not among the provided sources. -/
def Account.update_resyncing (s : WalletState) (account_id_hex : String)
    (b : Bool) : WalletState :=
  { s with accounts := s.accounts.map (fun a =>
      if a.id = account_id_hex then { a with resyncing := b } else a) }

/-- Modelled from the spec:
`AssignedSubaddress::find_by_subaddress_spend_public_key(k)` "returns
(index, b58) or not-found" (section 4.3); the injected fault stands for a
transient database failure of this lookup. Not among the provided
sources. -/
def AssignedSubaddress.find_by_subaddress_spend_public_key (k : Nat)
    (s : WalletState) : Except WalletDbError (Nat × String) :=
  match s.subaddress_lookup_fault with
  | some e => .error e
  | none =>
    match s.subaddresses.find? (fun sa => sa.spend_public_key == k) with
    | some sa => .ok (sa.subaddress_index, sa.b58_address)
    | none => .error .notFound

/-- Modelled from the spec: `Txo::create_received` upserts a Txo record,
"idempotent on Txo id" (sections 4.1 step 4 and 4.3); an existing row keeps
its terminal `spent_block_index` and `pending_tombstone_block_index`, a
fresh row starts with both null. Not among the provided sources. -/
def Txo.create_received (s : WalletState) (tx_out : TxOut)
    (subaddress_index : Option Nat) (key_image : Option Nat) (amount : Amount)
    (block_index : Nat) (account_id_hex : String) : WalletState :=
  if s.txos.any (fun t => t.id == tx_out) then
    { s with txos := s.txos.map (fun t =>
        if t.id = tx_out then
          { t with
              account_id := account_id_hex
              value := amount.value
              token_id := amount.token_id
              subaddress_index := subaddress_index
              key_image := key_image
              received_block_index := block_index }
        else t) }
  else
    { s with txos := s.txos ++
        [{ id := tx_out
           account_id := account_id_hex
           value := amount.value
           token_id := amount.token_id
           subaddress_index := subaddress_index
           key_image := key_image
           received_block_index := block_index
           spent_block_index := none
           pending_tombstone_block_index := none }] }

/-- Modelled from the spec: `Txo::list_unspent_or_pending_key_images`
"returns map key_image → txo_id_hex, excluding spent" for the given account
(section 4.3). Not among the provided sources. -/
def Txo.list_unspent_or_pending_key_images (s : WalletState)
    (account_id_hex : String) : List (Nat × TxOut) :=
  s.txos.filterMap (fun t =>
    if t.account_id = account_id_hex ∧ t.spent_block_index = none then
      t.key_image.map (fun ki => (ki, t.id))
    else none)

/-- Lookup in the key-image map returned by
`Txo.list_unspent_or_pending_key_images`. -/
def lookupKeyImage (m : List (Nat × TxOut)) (ki : Nat) : Option TxOut :=
  (m.find? (fun p => p.1 == ki)).map (fun p => p.2)

/-- Modelled from the spec: `Txo::update_spent_block_index` "sets terminal
spent state" (section 4.3). Not among the provided sources. -/
def Txo.update_spent_block_index (s : WalletState) (txo_id : TxOut)
    (block_index : Nat) : WalletState :=
  { s with txos := s.txos.map (fun t =>
      if t.id = txo_id then { t with spent_block_index := some block_index } else t) }

/-- Modelled from the spec:
`TransactionLog::update_pending_associated_with_txo_to_succeeded` "clears
pending for any log containing this txo as input" (section 4.3), recording
the finalized block. Not among the provided sources. -/
def TransactionLog.update_pending_associated_with_txo_to_succeeded
    (s : WalletState) (txo_id : TxOut) (block_index : Nat) : WalletState :=
  { s with tx_logs := s.tx_logs.map (fun lg =>
      if lg.status = TxStatus.pending ∧ txo_id ∈ lg.input_txo_ids then
        { lg with status := TxStatus.succeeded, finalized_block_index := some block_index }
      else lg) }

/-- Modelled from the spec:
`TransactionLog::update_pending_exceeding_tombstone_block_index_to_failed`
"fails any pending log with tombstone < block_index" (section 4.3). Not
among the provided sources. -/
def TransactionLog.update_pending_exceeding_tombstone_block_index_to_failed
    (s : WalletState) (block_index : Nat) : WalletState :=
  { s with tx_logs := s.tx_logs.map (fun lg =>
      if lg.status = TxStatus.pending ∧ lg.tombstone_block_index < block_index then
        { lg with status := TxStatus.failed }
      else lg) }

/-- Derived Txo status (spec section 3): spent when the key image was
observed, pending when referenced by a submitted transaction, orphaned when
the subaddress is unknown, unspent otherwise. -/
inductive TxoStatus where
  | unspent
  | pending
  | spent
  | orphaned
  | secreted
deriving DecidableEq

/-- Derives the `txo_status` field of a Txo row (spec section 3). -/
def txoStatus (t : Txo) : TxoStatus :=
  if t.spent_block_index.isSome then TxoStatus.spent
  else if t.pending_tombstone_block_index.isSome then TxoStatus.pending
  else if t.subaddress_index.isNone then TxoStatus.orphaned
  else TxoStatus.unspent

/-- Contents of one ledger block: outputs and key images. -/
structure BlockContents where
  outputs : List TxOut
  key_images : List Nat
deriving DecidableEq

/-- Ledger store error kinds the engine distinguishes
(`mc_ledger_db::Error::NotFound` versus any other failure). -/
inductive LedgerError where
  | notFound
  | other
deriving DecidableEq

/-- Ledger store: the list of confirmed blocks plus two injected fault
switches for transient read failures (`num_blocks_fault` fails
`num_blocks()`, `read_fault` fails `get_block_contents` at one index). -/
structure LedgerDB where
  blocks : List BlockContents
  num_blocks_fault : Bool
  read_fault : Option Nat
deriving DecidableEq

/-- Embeds `ledger_db.num_blocks()`. -/
def LedgerDB.num_blocks (l : LedgerDB) : Except LedgerError Nat :=
  if l.num_blocks_fault then .error .other else .ok l.blocks.length

/-- Contents of block `i`, with empty contents out of range (used only to
state theorems; the engine itself goes through `get_block_contents`). -/
def LedgerDB.blockAt (l : LedgerDB) (i : Nat) : BlockContents :=
  (l.blocks[i]?).getD { outputs := [], key_images := [] }

/-- Embeds `ledger_db.get_block_contents(block_index)`. -/
def LedgerDB.get_block_contents (l : LedgerDB) (block_index : Nat) :
    Except LedgerError BlockContents :=
  if l.read_fault = some block_index then .error .other
  else
    match l.blocks[block_index]? with
    | some bc => .ok bc
    | none => .error .notFound

/-- Error type returned by the sync functions (`SyncError` in the source,
with its From conversions from the database, ledger and decode errors). -/
inductive SyncError where
  | database (e : WalletDbError)
  | ledger (e : LedgerError)
  | decode
deriving DecidableEq

/-- Embeds `mc_util_serial::decode::<AccountKey>` on the stored key bytes. -/
def decodeAccountKey (b : KeyBlob) : Except SyncError AccountKey :=
  if b.decodes then .ok { view_private_key := b.view_private_key, spend_seed := b.spend_seed }
  else .error .decode

/-- Embeds `mc_util_serial::decode::<ViewAccountKey>` on the stored key
bytes. -/
def decodeViewAccountKey (b : KeyBlob) : Except SyncError ViewAccountKey :=
  if b.decodes then .ok { view_private_key := b.view_private_key }
  else .error .decode

/-- Embeds `decode_amount` (sync.rs lines 556 to 566): parse the output
public key, derive the shared secret, then attempt masked-amount
decryption; any failure means the output does not belong to the account. -/
def decode_amount (c : Crypto) (tx_out : TxOut) (view_private_key : Nat) : Option Amount :=
  match ristrettoTryFrom tx_out.public_key with
  | none => none
  | some tx_public_key =>
    let shared_secret := c.sharedSecret view_private_key tx_public_key
    match tx_out.masked_amount with
    | none => none
    | some ma =>
      match c.getValue ma shared_secret with
      | some (a, _) => some a
      | none => none

/-- Embeds `decode_subaddress_index` (sync.rs lines 568 to 588): parse both
keys, recover the subaddress spend public key and look it up; `.ok()` maps
every lookup error to None. -/
def decode_subaddress_index (c : Crypto) (tx_out : TxOut) (view_private_key : Nat)
    (s : WalletState) : Option Nat :=
  match ristrettoTryFrom tx_out.public_key with
  | none => none
  | some tx_public_key =>
    match ristrettoTryFrom tx_out.target_key with
    | none => none
    | some tx_out_target_key =>
      let subaddress_spend_public_key :=
        c.recoverSpendKey view_private_key tx_out_target_key tx_public_key
      match AssignedSubaddress.find_by_subaddress_spend_public_key
          subaddress_spend_public_key s with
      | .ok p => some p.1
      | .error _ => none

/-- Embeds `decode_subaddress_and_key_image` (sync.rs lines 594 to 618):
recover the subaddress index, and when it is known derive the one-time
private key and its key image. -/
def decode_subaddress_and_key_image (c : Crypto) (tx_out : TxOut)
    (account_key : AccountKey) (s : WalletState) : Option Nat × Option Nat :=
  match ristrettoTryFrom tx_out.public_key with
  | none => (none, none)
  | some tx_public_key =>
    let subaddress_index :=
      decode_subaddress_index c tx_out account_key.view_private_key s
    let key_image :=
      match subaddress_index with
      | some subaddress_i =>
        some (c.keyImage (c.recoverOnetime tx_public_key account_key.view_private_key
          (c.subaddressSpendPrivate account_key.spend_seed subaddress_i)))
      | none => none
    (subaddress_index, key_image)

/-- Chunk size constant (sync.rs line 50). -/
def BLOCKS_CHUNK_SIZE : Nat := 1000

/-- Embeds the block-loading loop of `sync_account_next_chunk` (sync.rs
lines 343 to 364): read consecutive blocks, stopping at NotFound (the
ledger tip), aborting on any other read error, and accumulating the chunk
end index, the (block, output) pairs and the (block, key image) pairs. -/
def load_chunk (ledger : LedgerDB) : Nat → Nat →
    Except SyncError (Option Nat × List (Nat × TxOut) × List (Nat × Nat))
  | _, 0 => .ok (none, [], [])
  | block_index, fuel + 1 =>
    match ledger.get_block_contents block_index with
    | .error .notFound => .ok (none, [], [])
    | .error e => .error (.ledger e)
    | .ok block_contents =>
      match load_chunk ledger (block_index + 1) fuel with
      | .error e => .error e
      | .ok (rest_end, rest_outs, rest_kis) =>
        .ok (some (rest_end.getD block_index),
             block_contents.outputs.map (fun t => (block_index, t)) ++ rest_outs,
             block_contents.key_images.map (fun k => (block_index, k)) ++ rest_kis)

/-- Embeds `sync_account_next_chunk` (sync.rs lines 324 to 552): inside one
exclusive write transaction, reload the account (propagating a NotFound
error through the question-mark operator, as the source does), load up to
BLOCKS_CHUNK_SIZE blocks, run the receive phase (trial decryption and
subaddress recovery against the pre-chunk store), the spend phase (matching
chunk key images against the unspent-or-pending map), the tombstone sweep
at end + 1, and finally advance the cursor to end + 1. An `.error` result
stands for a rolled-back transaction (the caller keeps the pre-call
state). -/
def sync_account_next_chunk (c : Crypto) (ledger : LedgerDB) (s : WalletState)
    (account_id_hex : String) : Except SyncError (WalletState × Nat) :=
  match Account.get account_id_hex s with
  | .error e => .error (.database e)
  | .ok account =>
    match load_chunk ledger account.next_block_index BLOCKS_CHUNK_SIZE with
    | .error e => .error e
    | .ok (end_opt, tx_outs, key_images) =>
      match end_opt with
      | none => .ok (s, 0)
      | some end_block_index =>
        if account.view_only then
          match decodeViewAccountKey account.account_key with
          | .error e => .error e
          | .ok view_account_key =>
            let received_txos := tx_outs.filterMap (fun bt =>
              (decode_amount c bt.2 view_account_key.view_private_key).map
                (fun a => (bt.1, bt.2, a)))
            let received_txos_with_subaddresses := received_txos.map (fun bta =>
              (bta.1, bta.2.1, bta.2.2,
               decode_subaddress_index c bta.2.1 view_account_key.view_private_key s))
            let num_received_txos := received_txos_with_subaddresses.length
            let s1 := received_txos_with_subaddresses.foldl (fun st x =>
              Txo.create_received st x.2.1 x.2.2.2 none x.2.2.1 x.1 account_id_hex) s
            let unspent_key_images := Txo.list_unspent_or_pending_key_images s1 account_id_hex
            let spent_txos := key_images.filterMap (fun bk =>
              (lookupKeyImage unspent_key_images bk.2).map (fun tid => (bk.1, tid)))
            let s2 := spent_txos.foldl (fun st bt =>
              TransactionLog.update_pending_associated_with_txo_to_succeeded
                (Txo.update_spent_block_index st bt.2 bt.1) bt.2 bt.1) s1
            let s3 := TransactionLog.update_pending_exceeding_tombstone_block_index_to_failed
              s2 (end_block_index + 1)
            let s4 := Account.update_next_block_index s3 account_id_hex (end_block_index + 1)
            .ok (s4, num_received_txos)
        else
          match decodeAccountKey account.account_key with
          | .error e => .error e
          | .ok account_key =>
            let received_txos := tx_outs.filterMap (fun bt =>
              (decode_amount c bt.2 account_key.view_private_key).map
                (fun a => (bt.1, bt.2, a)))
            let received_txos_with_subaddresses_and_key_images := received_txos.map (fun bta =>
              (bta.1, bta.2.1, bta.2.2,
               decode_subaddress_and_key_image c bta.2.1 account_key s))
            let num_received_txos := received_txos_with_subaddresses_and_key_images.length
            let s1 := received_txos_with_subaddresses_and_key_images.foldl (fun st x =>
              Txo.create_received st x.2.1 x.2.2.2.1 x.2.2.2.2 x.2.2.1 x.1 account_id_hex) s
            let unspent_key_images := Txo.list_unspent_or_pending_key_images s1 account_id_hex
            let spent_txos := key_images.filterMap (fun bk =>
              (lookupKeyImage unspent_key_images bk.2).map (fun tid => (bk.1, tid)))
            let s2 := spent_txos.foldl (fun st bt =>
              TransactionLog.update_pending_associated_with_txo_to_succeeded
                (Txo.update_spent_block_index st bt.2 bt.1) bt.2 bt.1) s1
            let s3 := TransactionLog.update_pending_exceeding_tombstone_block_index_to_failed
              s2 (end_block_index + 1)
            let s4 := Account.update_next_block_index s3 account_id_hex (end_block_index + 1)
            .ok (s4, num_received_txos)

/-- Deposit Set (spec section 3): in-memory map from account id to the
notified flag, embedded as an association list with the key discipline of a
HashMap. -/
abbrev DepositMap := List (String × Bool)

/-- Lookup in the Deposit Set. -/
def DepositMap.lookup (m : DepositMap) (k : String) : Option Bool :=
  (List.find? (fun p => p.1 == k) m).map (fun p => p.2)

/-- Embeds `HashMap::insert`: overwrite the value when the key is present,
append the binding otherwise. -/
def DepositMap.insert (m : DepositMap) (k : String) (v : Bool) : DepositMap :=
  if m.any (fun p => p.1 == k) then
    m.map (fun p => if p.1 = k then (k, v) else p)
  else m ++ [(k, v)]

/-- Embeds `HashMap::entry(k).and_modify(|v| *v = true)`: set an existing
entry to true, never inserting (sync.rs lines 288 to 291). -/
def DepositMap.and_modify_true (m : DepositMap) (k : String) : DepositMap :=
  m.map (fun p => if p.1 = k then (p.1, true) else p)

/-- Embeds `HashMap::remove`. -/
def DepositMap.remove (m : DepositMap) (k : String) : DepositMap :=
  m.filter (fun p => p.1 != k)

/-- Outcome of one scan-engine tick: clean return, a returned error (logged
by the worker loop, which then continues), or a Rust panic from one of the
`.expect` calls, which terminates the worker thread. -/
inductive TickOutcome where
  | ok
  | err (e : SyncError)
  | crash
deriving DecidableEq

/-- Embeds the per-account loop of `sync_all_accounts` (sync.rs lines 272
to 319) over the snapshot returned by `Account::list_all`. A caught-up
account (snapshot cursor past the last block) has its Deposit Set entry
promoted to true when one exists and its resyncing flag cleared; any other
account is advanced by one chunk, and a chunk that received outputs inserts
account id → false into the Deposit Set. A chunk error aborts the tick,
keeping the chunks already committed. -/
def sync_accounts_loop (c : Crypto) (ledger : LedgerDB) (num_blocks : Nat) :
    List Account → WalletState → DepositMap → WalletState × DepositMap × TickOutcome
  | [], s, deposits => (s, deposits, .ok)
  | account :: rest, s, deposits =>
    if account.next_block_index > num_blocks - 1 then
      let deposits1 := DepositMap.and_modify_true deposits account.id
      let s1 := if account.resyncing then Account.update_resyncing s account.id false else s
      sync_accounts_loop c ledger num_blocks rest s1 deposits1
    else
      match sync_account_next_chunk c ledger s account.id with
      | .error e => (s, deposits, .err e)
      | .ok (s1, found_txos) =>
        let deposits1 :=
          if found_txos > 0 then DepositMap.insert deposits account.id false else deposits
        sync_accounts_loop c ledger num_blocks rest s1 deposits1

/-- Embeds `sync_all_accounts` (sync.rs lines 253 to 322): read the number
of blocks (the `.expect` panics on failure, modelled as `.crash`), return
cleanly on an empty ledger, list the accounts (again `.expect`), then run
the per-account loop. -/
def sync_all_accounts (c : Crypto) (ledger : LedgerDB) (s : WalletState)
    (deposits : DepositMap) : WalletState × DepositMap × TickOutcome :=
  match ledger.num_blocks with
  | .error _ => (s, deposits, .crash)
  | .ok num_blocks =>
    if num_blocks = 0 then (s, deposits, .ok)
    else
      match Account.list_all s with
      | .error _ => (s, deposits, .crash)
      | .ok accounts => sync_accounts_loop c ledger num_blocks accounts s deposits

/-- Runs a sequence of scan-engine ticks, one ledger snapshot per tick (the
ledger may grow between ticks); each tick leaves the wallet store and
Deposit Set the worker loop carries into the next tick. -/
def run_ticks (c : Crypto) : List LedgerDB → WalletState → DepositMap →
    WalletState × DepositMap
  | [], s, deposits => (s, deposits)
  | ledger :: rest, s, deposits =>
    run_ticks c rest (sync_all_accounts c ledger s deposits).1
      (sync_all_accounts c ledger s deposits).2.1

/-- Minimal JSON values, enough for the webhook body. -/
inductive Json where
  | str (s : String)
  | jbool (b : Bool)
  | arr (xs : List Json)
  | obj (fields : List (String × Json))

/-- Outbound HTTP request as the webhook dispatcher builds it. -/
structure WebhookRequest where
  is_post : Bool
  url : String
  headers : List (String × String)
  body : Json

/-- Embeds the header map built at sync.rs lines 99 to 100. The source
constructs it but never attaches it to any request. -/
def json_headers : List (String × String) :=
  [("Content-Type", "application/json")]

/-- Embeds the gathering of `accounts_to_send` (sync.rs lines 108 to 115):
the keys of the Deposit Set whose value is true. -/
def accounts_to_send (deposits : DepositMap) : List String :=
  (deposits.filter (fun p => p.2 == true)).map (fun p => p.1)

/-- Embeds one iteration of the webhook dispatcher loop (sync.rs lines 102
to 161): collect the true entries, remove exactly those keys, snapshot the
restart flag, and when the collection is non-empty build the POST request
with the two-field JSON body. The request carries no headers because the
source never attaches the header map it built. -/
def webhook_iteration (server_url : String) (deposits : DepositMap)
    (restart : Bool) : DepositMap × Option WebhookRequest :=
  let to_send := accounts_to_send deposits
  let deposits1 := to_send.foldl DepositMap.remove deposits
  let restart_to_send := restart
  let request :=
    if to_send.length > 0 then
      some { is_post := true
             url := server_url
             headers := []
             body := Json.obj
               [("accounts", Json.arr (to_send.map Json.str)),
                ("restart", Json.jbool restart_to_send)] }
    else none
  (deposits1, request)

/-- Toy cryptographic kernel for concrete runs: the decoded value is the
masked ciphertext itself, the recovered subaddress spend public key is the
target key, and the key image is the one-time private key
(subaddress spend private 100 times seed plus index, plus the public
key). -/
def cToy : Crypto :=
  { sharedSecret := fun v p => v + p
    getValue := fun ma ss => some ({ value := ma, token_id := 0 }, ss)
    recoverSpendKey := fun v t p => t
    recoverOnetime := fun p v sp => sp + p
    keyImage := fun x => x
    subaddressSpendPrivate := fun seed i => seed * 100 + i }

/-- Concrete output: valid keys, target key 3, masked amount 100. Under
`cToy` it decodes to value 100 for any account. -/
def oToy : TxOut :=
  { public_key := { bytes := 7, valid := true }
    target_key := { bytes := 3, valid := true }
    masked_amount := some 100 }

/-- Concrete account key bytes that decode. -/
def keyToy : KeyBlob := { view_private_key := 5, spend_seed := 9, decodes := true }

/-- Concrete account at cursor 0. -/
def aToy : Account :=
  { id := "a1", account_key := keyToy, view_only := false
    first_block_index := 0, next_block_index := 0, resyncing := false }

/-- Concrete assigned subaddress matching `oToy` under `cToy` (spend public
key 3 = the target key), at index 7. -/
def saToy : AssignedSubaddress :=
  { account_id := "a1", subaddress_index := 7, spend_public_key := 3
    b58_address := "b58" }

/-- Key image `cToy` derives for `oToy` received by `aToy` at subaddress 7:
subaddress spend private 907, one-time private 914, key image 914. -/
def kiToy : Nat := 914

/-- Wallet store holding `aToy` with its subaddress and nothing else. -/
def sToy : WalletState :=
  { accounts := [aToy], subaddresses := [saToy], txos := [], tx_logs := []
    subaddress_lookup_fault := none, list_all_fault := false }

/-- Ledger in which block 0 delivers `oToy` and block 1 spends it: its key
image `kiToy` appears one block later, inside the same chunk. -/
def ledgerReceiveSpend : LedgerDB :=
  { blocks := [{ outputs := [oToy], key_images := [] },
               { outputs := [], key_images := [kiToy] }]
    num_blocks_fault := false, read_fault := none }

/-- Ledger with a single empty block. -/
def ledgerOneBlock : LedgerDB :=
  { blocks := [{ outputs := [], key_images := [] }]
    num_blocks_fault := false, read_fault := none }

/-- Ledger with a single block delivering `oToy`. -/
def ledgerOneOut : LedgerDB :=
  { blocks := [{ outputs := [oToy], key_images := [] }]
    num_blocks_fault := false, read_fault := none }

/-- Ledger whose `num_blocks()` fails. -/
def ledgerCrash : LedgerDB :=
  { blocks := [], num_blocks_fault := true, read_fault := none }

/-- Wallet store whose only account is `aToy` marked resyncing. -/
def sResync : WalletState :=
  { sToy with accounts := [{ aToy with resyncing := true }] }

/-- Pending transaction log with tombstone block index 1 and no inputs. -/
def logToy : TransactionLog :=
  { id := 1, input_txo_ids := [], tombstone_block_index := 1
    status := TxStatus.pending, finalized_block_index := none }

/-- Wallet store holding `aToy` and the pending log `logToy`. -/
def sPendingLog : WalletState := { sToy with tx_logs := [logToy] }

/-- Wallet store holding `aToy` whose subaddress lookup suffers a transient
database failure. -/
def sFaulty : WalletState := { sToy with subaddress_lookup_fault := some .diesel }

deriving instance DecidableEq for Except

/-- Sync cursor of the account row with the given id. -/
def nextOf (s : WalletState) (account_id_hex : String) : Option Nat :=
  (s.accounts.find? (fun a => a.id == account_id_hex)).map (fun a => a.next_block_index)

/-- Resyncing flag of the account row with the given id. -/
def resyncingOf (s : WalletState) (account_id_hex : String) : Option Bool :=
  (s.accounts.find? (fun a => a.id == account_id_hex)).map (fun a => a.resyncing)

/-- Txo row as `Txo.create_received` freshly inserts it. -/
def mkReceivedTxo (o : TxOut) (aid : String) (am : Amount) (sub ki : Option Nat)
    (bi : Nat) : Txo :=
  { id := o, account_id := aid, value := am.value, token_id := am.token_id
    subaddress_index := sub, key_image := ki, received_block_index := bi
    spent_block_index := none, pending_tombstone_block_index := none }

/-- Key image the chunk records for output `o` received by account `a`:
none for a view-only account, otherwise the second component of
`decode_subaddress_and_key_image`. -/
def txKeyImage (c : Crypto) (a : Account) (o : TxOut) (s : WalletState) : Option Nat :=
  if a.view_only then none
  else (decode_subaddress_and_key_image c o
    { view_private_key := a.account_key.view_private_key
      spend_seed := a.account_key.spend_seed } s).2

/-- Relation between a transaction log row before a committed chunk and the
same row after it, where `bi` is the block index the chunk passes to the
tombstone sweep (chunk end plus one): the tombstone is unchanged, and a
pending row with tombstone below `bi` ends failed or succeeded while a
pending row with tombstone at least `bi` is never failed. -/
def SpendSweepRel (bi : Nat) (lg lg2 : TransactionLog) : Prop :=
  lg2.tombstone_block_index = lg.tombstone_block_index ∧
  (lg.status = TxStatus.pending →
    (lg.tombstone_block_index < bi →
      lg2.status = TxStatus.failed ∨ lg2.status = TxStatus.succeeded) ∧
    (bi ≤ lg.tombstone_block_index → lg2.status ≠ TxStatus.failed))

/-- Relation between a transaction log row before and after the spend
phase: the tombstone is unchanged and the row is either untouched or moved
from pending to succeeded. -/
def SpendRel (lg lg2 : TransactionLog) : Prop :=
  lg2.tombstone_block_index = lg.tombstone_block_index ∧
  (lg2 = lg ∨ (lg.status = TxStatus.pending ∧ lg2.status = TxStatus.succeeded))

/-- Wallet store after `sync_account_next_chunk` runs `aToy` over
`ledgerOneBlock`: the cursor advanced to 1 and nothing else changed. -/
def sAfterOneBlock : WalletState :=
  { sToy with accounts := [{ aToy with next_block_index := 1 }] }

/-- Txo row created for `oToy` received by `aToy` at block 0. -/
def tToy : Txo :=
  { id := oToy, account_id := "a1", value := 100, token_id := 0
    subaddress_index := some 7, key_image := some kiToy
    received_block_index := 0, spent_block_index := none
    pending_tombstone_block_index := none }

/-- Wallet store after `sync_account_next_chunk` runs `aToy` over
`ledgerOneOut`: one unspent Txo and the cursor advanced to 1. -/
def sAfterReceive : WalletState :=
  { sToy with accounts := [{ aToy with next_block_index := 1 }], txos := [tToy] }

/-- Account already caught up (cursor 1 over a one-block ledger) and marked
resyncing. -/
def aCaughtRe : Account := { aToy with next_block_index := 1, resyncing := true }

/-- Wallet store whose only account is `aCaughtRe`. -/
def sCaughtRe : WalletState := { sToy with accounts := [aCaughtRe] }

/-- Wallet store after `sync_account_next_chunk` runs `aToy` over
`ledgerOneBlock` starting from `sPendingLog`: the cursor advanced to 1 and
the pending log with tombstone 1 is untouched. -/
def sAfterOneBlockLog : WalletState :=
  { sPendingLog with accounts := [{ aToy with next_block_index := 1 }] }

@[simp]
theorem create_received_accounts (s : WalletState) (tx : TxOut) (sub ki : Option Nat)
    (am : Amount) (bi : Nat) (aid : String) :
    (Txo.create_received s tx sub ki am bi aid).accounts = s.accounts := by
  unfold Txo.create_received; split <;> rfl

@[simp]
theorem create_received_tx_logs (s : WalletState) (tx : TxOut) (sub ki : Option Nat)
    (am : Amount) (bi : Nat) (aid : String) :
    (Txo.create_received s tx sub ki am bi aid).tx_logs = s.tx_logs := by
  unfold Txo.create_received; split <;> rfl

@[simp]
theorem create_received_subaddresses (s : WalletState) (tx : TxOut) (sub ki : Option Nat)
    (am : Amount) (bi : Nat) (aid : String) :
    (Txo.create_received s tx sub ki am bi aid).subaddresses = s.subaddresses := by
  unfold Txo.create_received; split <;> rfl

@[simp]
theorem update_spent_accounts (s : WalletState) (tid : TxOut) (bi : Nat) :
    (Txo.update_spent_block_index s tid bi).accounts = s.accounts := rfl

@[simp]
theorem update_spent_tx_logs (s : WalletState) (tid : TxOut) (bi : Nat) :
    (Txo.update_spent_block_index s tid bi).tx_logs = s.tx_logs := rfl

@[simp]
theorem update_pending_assoc_accounts (s : WalletState) (tid : TxOut) (bi : Nat) :
    (TransactionLog.update_pending_associated_with_txo_to_succeeded s tid bi).accounts
      = s.accounts := rfl

@[simp]
theorem update_pending_assoc_txos (s : WalletState) (tid : TxOut) (bi : Nat) :
    (TransactionLog.update_pending_associated_with_txo_to_succeeded s tid bi).txos
      = s.txos := rfl

@[simp]
theorem sweep_accounts (s : WalletState) (bi : Nat) :
    (TransactionLog.update_pending_exceeding_tombstone_block_index_to_failed s bi).accounts
      = s.accounts := rfl

@[simp]
theorem sweep_txos (s : WalletState) (bi : Nat) :
    (TransactionLog.update_pending_exceeding_tombstone_block_index_to_failed s bi).txos
      = s.txos := rfl

@[simp]
theorem update_next_txos (s : WalletState) (aid : String) (n : Nat) :
    (Account.update_next_block_index s aid n).txos = s.txos := rfl

@[simp]
theorem update_next_tx_logs (s : WalletState) (aid : String) (n : Nat) :
    (Account.update_next_block_index s aid n).tx_logs = s.tx_logs := rfl

@[simp]
theorem update_resyncing_txos (s : WalletState) (aid : String) (b : Bool) :
    (Account.update_resyncing s aid b).txos = s.txos := rfl

theorem account_get_ok_iff (aid : String) (s : WalletState) (a : Account) :
    Account.get aid s = .ok a ↔
      s.accounts.find? (fun x => x.id == aid) = some a := by
  unfold Account.get
  cases h : s.accounts.find? (fun x => x.id == aid) <;> simp [h]

theorem foldl_preserves_accounts {α : Type} (f : WalletState → α → WalletState)
    (hf : ∀ st x, (f st x).accounts = st.accounts) :
    ∀ (L : List α) (s : WalletState), (L.foldl f s).accounts = s.accounts := by
  intro L
  induction L with
  | nil => intro s; rfl
  | cons x L ih => intro s; rw [List.foldl_cons, ih, hf]

theorem foldl_preserves_tx_logs {α : Type} (f : WalletState → α → WalletState)
    (hf : ∀ st x, (f st x).tx_logs = st.tx_logs) :
    ∀ (L : List α) (s : WalletState), (L.foldl f s).tx_logs = s.tx_logs := by
  intro L
  induction L with
  | nil => intro s; rfl
  | cons x L ih => intro s; rw [List.foldl_cons, ih, hf]

theorem find?_map_id_preserving (f : Account → Account)
    (hf : ∀ a, (f a).id = a.id) (x : String) :
    ∀ l : List Account,
      List.find? (fun a => a.id == x) (l.map f) =
        (List.find? (fun a => a.id == x) l).map f := by
  intro l
  induction l with
  | nil => rfl
  | cons a t ih =>
    simp only [List.map_cons, List.find?_cons, hf a]
    cases h : (a.id == x) <;> simp [h, ih]

theorem nextOf_congr (s1 s2 : WalletState) (h : s1.accounts = s2.accounts)
    (x : String) : nextOf s1 x = nextOf s2 x := by
  unfold nextOf; rw [h]

theorem resyncingOf_congr (s1 s2 : WalletState) (h : s1.accounts = s2.accounts)
    (x : String) : resyncingOf s1 x = resyncingOf s2 x := by
  unfold resyncingOf; rw [h]

theorem nextOf_update_next (s : WalletState) (aid x : String) (n : Nat) :
    nextOf (Account.update_next_block_index s aid n) x =
      (nextOf s x).map (fun v => if x = aid then n else v) := by
  unfold nextOf Account.update_next_block_index
  rw [find?_map_id_preserving (fun a => if a.id = aid then { a with next_block_index := n } else a)
    (by intro a; by_cases h : a.id = aid <;> simp [h]) x]
  cases h : List.find? (fun a => a.id == x) s.accounts with
  | none => rfl
  | some a =>
    have hid : a.id = x := by
      have := List.find?_some h
      simpa [beq_iff_eq] using this
    by_cases hx : x = aid
    · subst hx; simp [hid]
    · simp [hid, hx]

theorem resyncingOf_update_next (s : WalletState) (aid x : String) (n : Nat) :
    resyncingOf (Account.update_next_block_index s aid n) x = resyncingOf s x := by
  unfold resyncingOf Account.update_next_block_index
  rw [find?_map_id_preserving (fun a => if a.id = aid then { a with next_block_index := n } else a)
    (by intro a; by_cases h : a.id = aid <;> simp [h]) x]
  cases h : List.find? (fun a => a.id == x) s.accounts with
  | none => rfl
  | some a => by_cases hx : a.id = aid <;> simp [hx]

theorem nextOf_update_resyncing (s : WalletState) (aid x : String) (b : Bool) :
    nextOf (Account.update_resyncing s aid b) x = nextOf s x := by
  unfold nextOf Account.update_resyncing
  rw [find?_map_id_preserving (fun a => if a.id = aid then { a with resyncing := b } else a)
    (by intro a; by_cases h : a.id = aid <;> simp [h]) x]
  cases h : List.find? (fun a => a.id == x) s.accounts with
  | none => rfl
  | some a => by_cases hx : a.id = aid <;> simp [hx]

theorem load_chunk_end_ge (ledger : LedgerDB) :
    ∀ (fuel start : Nat) (eo : Option Nat) (outs : List (Nat × TxOut))
      (kis : List (Nat × Nat)),
      load_chunk ledger start fuel = .ok (eo, outs, kis) →
      ∀ e, eo = some e → start ≤ e := by
  intro fuel
  induction fuel with
  | zero =>
    intro start eo outs kis h e he
    simp only [load_chunk] at h
    cases h; cases he
  | succ fuel ih =>
    intro start eo outs kis h e he
    simp only [load_chunk] at h
    cases hg : ledger.get_block_contents start with
    | error err =>
      rw [hg] at h
      cases err with
      | notFound => cases h; cases he
      | other => cases h
    | ok bc =>
      rw [hg] at h
      cases hr : load_chunk ledger (start + 1) fuel with
      | error err => rw [hr] at h; cases h
      | ok triple =>
        obtain ⟨eo1, outs1, kis1⟩ := triple
        rw [hr] at h
        cases h
        cases he
        cases heo1 : eo1 with
        | none => simp [heo1]
        | some e1 =>
          have := ih (start + 1) eo1 outs1 kis1 hr e1 heo1
          simp [heo1]
          omega

theorem forall2_refl {α : Type} (R : α → α → Prop) (h : ∀ x, R x x) :
    ∀ l : List α, List.Forall₂ R l l := by
  intro l
  induction l with
  | nil => exact List.Forall₂.nil
  | cons x t ih => exact List.Forall₂.cons (h x) ih

theorem forall2_self_map {α : Type} (R : α → α → Prop) (g : α → α)
    (h : ∀ x, R x (g x)) : ∀ l : List α, List.Forall₂ R l (l.map g) := by
  intro l
  induction l with
  | nil => exact List.Forall₂.nil
  | cons x t ih => exact List.Forall₂.cons (h x) ih

theorem forall2_compose {α : Type} (R S T : α → α → Prop)
    (hc : ∀ a b c2, R a b → S b c2 → T a c2) :
    ∀ l1 l2 l3 : List α, List.Forall₂ R l1 l2 → List.Forall₂ S l2 l3 →
      List.Forall₂ T l1 l3 := by
  intro l1 l2 l3 hR
  induction hR generalizing l3 with
  | nil => intro hS; cases hS; exact List.Forall₂.nil
  | cons hab ht ih =>
    intro hS
    cases hS with
    | cons hbc ht2 => exact List.Forall₂.cons (hc _ _ _ hab hbc) (ih _ ht2)

theorem spendRel_refl (lg : TransactionLog) : SpendRel lg lg := ⟨rfl, Or.inl rfl⟩

theorem spendRel_trans (a b c2 : TransactionLog) (h1 : SpendRel a b)
    (h2 : SpendRel b c2) : SpendRel a c2 := by
  obtain ⟨ht1, hab⟩ := h1
  obtain ⟨ht2, hbc⟩ := h2
  refine ⟨by rw [ht2, ht1], ?_⟩
  rcases hab with hab | ⟨hp, hs⟩
  · subst hab; exact hbc
  · rcases hbc with hbc | ⟨hp2, hs2⟩
    · subst hbc; exact Or.inr ⟨hp, hs⟩
    · rw [hs] at hp2; cases hp2

theorem spendRel_then_sweep (bi : Nat) (a b c2 : TransactionLog)
    (h1 : SpendRel a b)
    (h2 : c2 = if b.status = TxStatus.pending ∧ b.tombstone_block_index < bi
        then { b with status := TxStatus.failed } else b) :
    SpendSweepRel bi a c2 := by
  obtain ⟨ht, hab⟩ := h1
  subst h2
  constructor
  · split <;> exact ht
  · intro hp
    rcases hab with hab | ⟨hp2, hs⟩
    · subst hab
      constructor
      · intro hlt
        rw [if_pos ⟨hp, by rw [ht]; exact hlt⟩]
        exact Or.inl rfl
      · intro hge2
        rw [if_neg (fun hcon => absurd hcon.2 (by rw [ht]; omega))]
        rw [hp]
        intro hcon2
        cases hcon2
    · rw [if_neg (fun hcon => by rw [hs] at hcon; cases hcon.1)]
      constructor
      · intro hlt; exact Or.inr hs
      · intro hge2
        rw [hs]
        intro hcon2
        cases hcon2

theorem update_pending_assoc_logs_rel (s : WalletState) (tid : TxOut) (bi : Nat) :
    List.Forall₂ SpendRel s.tx_logs
      (TransactionLog.update_pending_associated_with_txo_to_succeeded s tid bi).tx_logs := by
  refine forall2_self_map SpendRel _ ?_ s.tx_logs
  intro lg
  by_cases h : lg.status = TxStatus.pending ∧ tid ∈ lg.input_txo_ids
  · rw [if_pos h]; exact ⟨rfl, Or.inr ⟨h.1, rfl⟩⟩
  · rw [if_neg h]; exact spendRel_refl lg

theorem spend_fold_logs (L : List (Nat × TxOut)) :
    ∀ s : WalletState,
      List.Forall₂ SpendRel s.tx_logs
        ((L.foldl (fun st bt =>
            TransactionLog.update_pending_associated_with_txo_to_succeeded
              (Txo.update_spent_block_index st bt.2 bt.1) bt.2 bt.1) s).tx_logs) := by
  induction L with
  | nil => intro s; exact forall2_refl SpendRel spendRel_refl s.tx_logs
  | cons p L ih =>
    intro s
    rw [List.foldl_cons]
    refine forall2_compose SpendRel SpendRel SpendRel spendRel_trans _ _ _ ?_ (ih _)
    have h2 := update_pending_assoc_logs_rel (Txo.update_spent_block_index s p.2 p.1) p.2 p.1
    exact h2

theorem sweep_logs_map (s : WalletState) (bi : Nat) :
    (TransactionLog.update_pending_exceeding_tombstone_block_index_to_failed s bi).tx_logs
      = s.tx_logs.map (fun lg =>
          if lg.status = TxStatus.pending ∧ lg.tombstone_block_index < bi
          then { lg with status := TxStatus.failed } else lg) := rfl

theorem chunk_logs_rel (s1 : WalletState) (L : List (Nat × TxOut)) (bi : Nat) :
    List.Forall₂ (SpendSweepRel bi) s1.tx_logs
      (TransactionLog.update_pending_exceeding_tombstone_block_index_to_failed
        (L.foldl (fun st bt =>
            TransactionLog.update_pending_associated_with_txo_to_succeeded
              (Txo.update_spent_block_index st bt.2 bt.1) bt.2 bt.1) s1) bi).tx_logs := by
  rw [sweep_logs_map]
  refine forall2_compose SpendRel
    (fun b c2 => c2 = if b.status = TxStatus.pending ∧ b.tombstone_block_index < bi
        then { b with status := TxStatus.failed } else b)
    (SpendSweepRel bi)
    (spendRel_then_sweep bi) _ _ _ (spend_fold_logs L s1) ?_
  exact forall2_self_map
    (fun b c2 => c2 = if b.status = TxStatus.pending ∧ b.tombstone_block_index < bi
        then { b with status := TxStatus.failed } else b)
    (fun b : TransactionLog =>
      if b.status = TxStatus.pending ∧ b.tombstone_block_index < bi
        then { b with status := TxStatus.failed } else b)
    (fun lg => rfl) _

theorem create_fold_accounts_full (aid : String)
    (L : List (Nat × TxOut × Amount × Option Nat × Option Nat)) (s : WalletState) :
    (L.foldl (fun st x =>
      Txo.create_received st x.2.1 x.2.2.2.1 x.2.2.2.2 x.2.2.1 x.1 aid) s).accounts
      = s.accounts :=
  foldl_preserves_accounts _ (fun st x => create_received_accounts _ _ _ _ _ _ _) L s

theorem create_fold_accounts_view (aid : String)
    (L : List (Nat × TxOut × Amount × Option Nat)) (s : WalletState) :
    (L.foldl (fun st x =>
      Txo.create_received st x.2.1 x.2.2.2 none x.2.2.1 x.1 aid) s).accounts
      = s.accounts :=
  foldl_preserves_accounts _ (fun st x => create_received_accounts _ _ _ _ _ _ _) L s

theorem create_fold_tx_logs_full (aid : String)
    (L : List (Nat × TxOut × Amount × Option Nat × Option Nat)) (s : WalletState) :
    (L.foldl (fun st x =>
      Txo.create_received st x.2.1 x.2.2.2.1 x.2.2.2.2 x.2.2.1 x.1 aid) s).tx_logs
      = s.tx_logs :=
  foldl_preserves_tx_logs _ (fun st x => create_received_tx_logs _ _ _ _ _ _ _) L s

theorem create_fold_tx_logs_view (aid : String)
    (L : List (Nat × TxOut × Amount × Option Nat)) (s : WalletState) :
    (L.foldl (fun st x =>
      Txo.create_received st x.2.1 x.2.2.2 none x.2.2.1 x.1 aid) s).tx_logs
      = s.tx_logs :=
  foldl_preserves_tx_logs _ (fun st x => create_received_tx_logs _ _ _ _ _ _ _) L s

theorem spend_fold_accounts (L : List (Nat × TxOut)) (s : WalletState) :
    (L.foldl (fun st bt =>
      TransactionLog.update_pending_associated_with_txo_to_succeeded
        (Txo.update_spent_block_index st bt.2 bt.1) bt.2 bt.1) s).accounts
      = s.accounts :=
  foldl_preserves_accounts (fun st bt =>
      TransactionLog.update_pending_associated_with_txo_to_succeeded
        (Txo.update_spent_block_index st bt.2 bt.1) bt.2 bt.1)
    (fun st bt => rfl) L s

theorem chunk_logs_rel2 (s0 s1 : WalletState) (L : List (Nat × TxOut)) (bi : Nat)
    (hlog : s1.tx_logs = s0.tx_logs) :
    List.Forall₂ (SpendSweepRel bi) s0.tx_logs
      (TransactionLog.update_pending_exceeding_tombstone_block_index_to_failed
        (L.foldl (fun st bt =>
            TransactionLog.update_pending_associated_with_txo_to_succeeded
              (Txo.update_spent_block_index st bt.2 bt.1) bt.2 bt.1) s1) bi).tx_logs := by
  rw [← hlog]
  exact chunk_logs_rel s1 L bi

theorem chunk_ok_cases (c : Crypto) (ledger : LedgerDB) (s : WalletState)
    (aid : String) (s2 : WalletState) (n : Nat)
    (h : sync_account_next_chunk c ledger s aid = .ok (s2, n)) :
    (s2 = s ∧ n = 0) ∨
    ∃ account e,
      Account.get aid s = .ok account ∧
      account.next_block_index ≤ e ∧
      s2.accounts = s.accounts.map (fun a =>
        if a.id = aid then { a with next_block_index := e + 1 } else a) ∧
      List.Forall₂ (SpendSweepRel (e + 1)) s.tx_logs s2.tx_logs := by
  unfold sync_account_next_chunk at h
  cases hget : Account.get aid s with
  | error e0 => simp only [hget] at h; exact Except.noConfusion h
  | ok account =>
  simp only [hget] at h
  cases hload : load_chunk ledger account.next_block_index BLOCKS_CHUNK_SIZE with
  | error e0 => simp only [hload] at h; exact Except.noConfusion h
  | ok triple =>
  obtain ⟨eo, outs, kis⟩ := triple
  simp only [hload] at h
  cases eo with
  | none =>
    simp only [Except.ok.injEq, Prod.mk.injEq] at h
    exact Or.inl ⟨h.1.symm, h.2.symm⟩
  | some e =>
  have hge := load_chunk_end_ge ledger BLOCKS_CHUNK_SIZE account.next_block_index _ _ _ hload e rfl
  right
  split at h
  next heq => exact absurd heq (by simp)
  next end_block_index heq =>
  obtain rfl : end_block_index = e := by injection heq with hh; exact hh.symm
  split at h
  · -- view-only branch
    cases hdk : decodeViewAccountKey account.account_key with
    | error e0 => simp only [hdk] at h; exact Except.noConfusion h
    | ok view_account_key =>
    simp only [hdk, Except.ok.injEq, Prod.mk.injEq] at h
    obtain ⟨h1, h2⟩ := h
    subst h1
    refine ⟨account, end_block_index, rfl, hge, ?_, ?_⟩
    · simp only [Account.update_next_block_index, sweep_accounts, spend_fold_accounts,
        create_fold_accounts_view]
    · rw [update_next_tx_logs]
      exact chunk_logs_rel2 s _ _ (end_block_index + 1) (create_fold_tx_logs_view aid _ s)
  · -- full-key branch
    cases hdk : decodeAccountKey account.account_key with
    | error e0 => simp only [hdk] at h; exact Except.noConfusion h
    | ok account_key =>
    simp only [hdk, Except.ok.injEq, Prod.mk.injEq] at h
    obtain ⟨h1, h2⟩ := h
    subst h1
    refine ⟨account, end_block_index, rfl, hge, ?_, ?_⟩
    · simp only [Account.update_next_block_index, sweep_accounts, spend_fold_accounts,
        create_fold_accounts_full]
    · rw [update_next_tx_logs]
      exact chunk_logs_rel2 s _ _ (end_block_index + 1) (create_fold_tx_logs_full aid _ s)

theorem chunk_ok_nextOf (c : Crypto) (ledger : LedgerDB) (s : WalletState)
    (aid : String) (s2 : WalletState) (n : Nat)
    (h : sync_account_next_chunk c ledger s aid = .ok (s2, n)) :
    (∀ x, resyncingOf s2 x = resyncingOf s x) ∧
    (∀ x v, nextOf s x = some v → ∃ w, nextOf s2 x = some w ∧ v ≤ w) ∧
    (s2 = s ∨ ∃ st e, nextOf s aid = some st ∧ st ≤ e ∧ nextOf s2 aid = some (e + 1)) := by
  rcases chunk_ok_cases c ledger s aid s2 n h with ⟨hs, hn⟩ | ⟨account, e, hget, hle, haccs, hlogs⟩
  · subst hs
    exact ⟨fun x => rfl, fun x v hv => ⟨v, hv, le_refl v⟩, Or.inl rfl⟩
  · have hupd : s2.accounts = (Account.update_next_block_index s aid (e + 1)).accounts := haccs
    have hfind : s.accounts.find? (fun a => a.id == aid) = some account :=
      (account_get_ok_iff aid s account).mp hget
    have hnext_s : nextOf s aid = some account.next_block_index := by
      unfold nextOf; rw [hfind]; rfl
    refine ⟨?_, ?_, ?_⟩
    · intro x
      rw [resyncingOf_congr s2 (Account.update_next_block_index s aid (e + 1)) hupd x,
        resyncingOf_update_next]
    · intro x v hv
      rw [nextOf_congr s2 (Account.update_next_block_index s aid (e + 1)) hupd x,
        nextOf_update_next, hv]
      by_cases hxa : x = aid
      · refine ⟨e + 1, by simp [hxa], ?_⟩
        subst hxa
        rw [hnext_s] at hv
        have hv2 := Option.some.inj hv
        omega
      · exact ⟨v, by simp [hxa], le_refl v⟩
    · right
      refine ⟨account.next_block_index, e, hnext_s, hle, ?_⟩
      rw [nextOf_congr s2 (Account.update_next_block_index s aid (e + 1)) hupd aid,
        nextOf_update_next, hnext_s]
      simp

theorem loop_nextOf_forward (c : Crypto) (ledger : LedgerDB) (nb : Nat) :
    ∀ (accts : List Account) (s : WalletState) (d : DepositMap) (x : String) (v : Nat),
      nextOf s x = some v →
      ∃ w, nextOf (sync_accounts_loop c ledger nb accts s d).1 x = some w ∧ v ≤ w := by
  intro accts
  induction accts with
  | nil => intro s d x v hv; exact ⟨v, hv, le_refl v⟩
  | cons a rest ih =>
    intro s d x v hv
    unfold sync_accounts_loop
    split
    · by_cases hres : a.resyncing = true
      · simp only [if_pos hres]
        refine ih _ _ x v ?_
        rw [nextOf_update_resyncing]; exact hv
      · simp only [if_neg hres]
        exact ih _ _ x v hv
    · cases hch : sync_account_next_chunk c ledger s a.id with
      | error e0 => exact ⟨v, hv, le_refl v⟩
      | ok pr =>
        obtain ⟨s1, k⟩ := pr
        obtain ⟨w1, hw1, hvw1⟩ := (chunk_ok_nextOf c ledger s a.id s1 k hch).2.1 x v hv
        obtain ⟨w, hw, hww⟩ := ih s1 _ x w1 hw1
        exact ⟨w, hw, le_trans hvw1 hww⟩

theorem tick_nextOf_forward (c : Crypto) (ledger : LedgerDB) (s : WalletState)
    (d : DepositMap) (x : String) (v : Nat) (hv : nextOf s x = some v) :
    ∃ w, nextOf (sync_all_accounts c ledger s d).1 x = some w ∧ v ≤ w := by
  unfold sync_all_accounts
  cases hnb : ledger.num_blocks with
  | error e0 => exact ⟨v, hv, le_refl v⟩
  | ok nb =>
    by_cases h0 : nb = 0
    · simp only [if_pos h0]; exact ⟨v, hv, le_refl v⟩
    · simp only [if_neg h0]
      cases hla : Account.list_all s with
      | error e0 => exact ⟨v, hv, le_refl v⟩
      | ok accts => exact loop_nextOf_forward c ledger nb accts s d x v hv

theorem run_ticks_nextOf_forward (c : Crypto) :
    ∀ (ledgers : List LedgerDB) (s : WalletState) (d : DepositMap) (x : String) (v : Nat),
      nextOf s x = some v →
      ∃ w, nextOf (run_ticks c ledgers s d).1 x = some w ∧ v ≤ w := by
  intro ledgers
  induction ledgers with
  | nil => intro s d x v hv; exact ⟨v, hv, le_refl v⟩
  | cons l rest ih =>
    intro s d x v hv
    unfold run_ticks
    obtain ⟨w1, hw1, h1⟩ := tick_nextOf_forward c l s d x v hv
    obtain ⟨w, hw, h2⟩ := ih _ _ x w1 hw1
    exact ⟨w, hw, le_trans h1 h2⟩

theorem loop_no_crash (c : Crypto) (ledger : LedgerDB) (nb : Nat) :
    ∀ (accts : List Account) (s : WalletState) (d : DepositMap),
      (sync_accounts_loop c ledger nb accts s d).2.2 ≠ TickOutcome.crash := by
  intro accts
  induction accts with
  | nil => intro s d hcon; cases hcon
  | cons a rest ih =>
    intro s d
    unfold sync_accounts_loop
    split
    · by_cases hres : a.resyncing = true
      · simp only [if_pos hres]; exact ih _ _
      · simp only [if_neg hres]; exact ih _ _
    · cases hch : sync_account_next_chunk c ledger s a.id with
      | error e0 => intro hcon; cases hcon
      | ok pr =>
        obtain ⟨s1, k⟩ := pr
        exact ih s1 _

theorem depositMap_lookup_cons (p : String × Bool) (t : DepositMap) (k : String) :
    DepositMap.lookup (p :: t) k =
      if p.1 = k then some p.2 else DepositMap.lookup t k := by
  unfold DepositMap.lookup
  rw [List.find?_cons]
  by_cases h : p.1 = k
  · simp [h]
  · have hb : (p.1 == k) = false := by simp [h]
    simp [hb, h]

theorem accounts_to_send_cons (p : String × Bool) (t : DepositMap) :
    accounts_to_send (p :: t) =
      if p.2 = true then p.1 :: accounts_to_send t else accounts_to_send t := by
  unfold accounts_to_send
  rw [List.filter_cons]
  by_cases h : p.2 = true
  · simp [h]
  · simp [h]

theorem accounts_to_send_subset (m : DepositMap) (k : String)
    (h : k ∈ accounts_to_send m) : ∃ p ∈ m, p.1 = k ∧ p.2 = true := by
  unfold accounts_to_send at h
  obtain ⟨p, hp, hpk⟩ := List.mem_map.mp h
  have hf := List.mem_filter.mp hp
  exact ⟨p, hf.1, hpk, by simpa using hf.2⟩

theorem mem_accounts_to_send (k : String) :
    ∀ m : DepositMap, (m.map Prod.fst).Nodup →
      (k ∈ accounts_to_send m ↔ DepositMap.lookup m k = some true) := by
  intro m
  induction m with
  | nil => intro h; simp [accounts_to_send, DepositMap.lookup]
  | cons p t ih =>
    intro hnd
    simp only [List.map_cons, List.nodup_cons] at hnd
    rw [accounts_to_send_cons, depositMap_lookup_cons]
    by_cases hpk : p.1 = k
    · rw [if_pos hpk]
      by_cases hp2 : p.2 = true
      · rw [if_pos hp2, hp2]
        simp [List.mem_cons, hpk]
      · rw [if_neg hp2]
        constructor
        · intro hmem
          obtain ⟨q, hq, hqk, _⟩ := accounts_to_send_subset t k hmem
          exact absurd (List.mem_map.mpr ⟨q, hq, by rw [hqk, ← hpk]⟩) hnd.1
        · intro hcon
          exact absurd (Option.some.inj hcon) hp2
    · rw [if_neg hpk]
      by_cases hp2 : p.2 = true
      · rw [if_pos hp2]
        have hk : ¬ k = p.1 := fun hh => hpk hh.symm
        rw [List.mem_cons, ih hnd.2]
        simp [hk]
      · rw [if_neg hp2]
        exact ih hnd.2

theorem lookup_map_overwrite (k : String) (v : Bool) :
    ∀ m : DepositMap, m.any (fun p => p.1 == k) = true →
      DepositMap.lookup (m.map (fun p => if p.1 = k then (k, v) else p)) k = some v := by
  intro m
  induction m with
  | nil => intro h; cases h
  | cons p t ih =>
    intro h
    by_cases hp : p.1 = k
    · rw [List.map_cons, if_pos hp, depositMap_lookup_cons]
      simp
    · rw [List.map_cons, if_neg hp, depositMap_lookup_cons, if_neg hp]
      apply ih
      have hpk : (p.1 == k) = false := by simp [hp]
      simpa [List.any_cons, hpk] using h

theorem lookup_append_single (k : String) (v : Bool) :
    ∀ m : DepositMap, m.any (fun p => p.1 == k) = false →
      DepositMap.lookup (m ++ [(k, v)]) k = some v := by
  intro m
  induction m with
  | nil => intro h; simp [DepositMap.lookup, List.find?]
  | cons p t ih =>
    intro h
    simp only [List.any_cons, Bool.or_eq_false_iff] at h
    rw [List.cons_append, depositMap_lookup_cons,
      if_neg (by simpa [beq_iff_eq] using h.1)]
    exact ih h.2

theorem depositMap_lookup_insert_self (m : DepositMap) (k : String) (v : Bool) :
    DepositMap.lookup (DepositMap.insert m k v) k = some v := by
  unfold DepositMap.insert
  split
  next hany => exact lookup_map_overwrite k v m hany
  next hany => exact lookup_append_single k v m (by rwa [Bool.not_eq_true] at hany)

theorem depositMap_lookup_remove (k k0 : String) :
    ∀ m : DepositMap, DepositMap.lookup (DepositMap.remove m k0) k =
      if k = k0 then none else DepositMap.lookup m k := by
  intro m
  induction m with
  | nil => simp [DepositMap.remove, DepositMap.lookup]
  | cons p t ih =>
    by_cases hp : p.1 = k0
    · have hcond : (p.1 != k0) = false := by simp [hp]
      rw [show DepositMap.remove (p :: t) k0 = DepositMap.remove t k0 from by
        unfold DepositMap.remove; rw [List.filter_cons, hcond]; simp]
      rw [ih, depositMap_lookup_cons]
      by_cases hk : k = k0
      · simp [hk]
      · have : ¬ p.1 = k := by rw [hp]; exact fun hh => hk hh.symm
        simp [hk, this]
    · have hcond : (p.1 != k0) = true := by simp [hp]
      rw [show DepositMap.remove (p :: t) k0 = p :: DepositMap.remove t k0 from by
        unfold DepositMap.remove; rw [List.filter_cons, hcond]; simp]
      rw [depositMap_lookup_cons, depositMap_lookup_cons, ih]
      by_cases hpk : p.1 = k
      · have : ¬ k = k0 := by rw [← hpk]; exact fun hh => hp hh
        simp [hpk, this]
      · simp [hpk]

theorem depositMap_lookup_foldl_remove :
    ∀ (ks : List String) (m : DepositMap) (k : String),
      DepositMap.lookup (ks.foldl DepositMap.remove m) k =
        if k ∈ ks then none else DepositMap.lookup m k := by
  intro ks
  induction ks with
  | nil => intro m k; simp
  | cons k0 ks ih =>
    intro m k
    rw [List.foldl_cons, ih]
    by_cases hk : k ∈ ks
    · simp [hk, List.mem_cons]
    · rw [if_neg hk, depositMap_lookup_remove]
      by_cases hk0 : k = k0
      · simp [hk0, List.mem_cons]
      · have : k ∉ k0 :: ks := by simp [List.mem_cons, hk0, hk]
        simp [this, hk0]

theorem tick_single_behind (c : Crypto) (ledger : LedgerDB) (s : WalletState)
    (a : Account) (d : DepositMap)
    (hnf : ledger.num_blocks_fault = false)
    (hnz : ledger.blocks.length ≠ 0)
    (hlist : s.list_all_fault = false)
    (haccs : s.accounts = [a])
    (hbehind : ¬ a.next_block_index > ledger.blocks.length - 1)
    (s1 : WalletState) (k : Nat)
    (hch : sync_account_next_chunk c ledger s a.id = .ok (s1, k)) (hk : 0 < k) :
    sync_all_accounts c ledger s d = (s1, DepositMap.insert d a.id false, TickOutcome.ok) := by
  unfold sync_all_accounts
  have h1 : ledger.num_blocks = .ok ledger.blocks.length := by
    unfold LedgerDB.num_blocks; simp [hnf]
  simp only [h1]
  rw [if_neg hnz]
  have h2 : Account.list_all s = .ok [a] := by
    unfold Account.list_all; simp [hlist, haccs]
  simp only [h2]
  unfold sync_accounts_loop
  rw [if_neg hbehind]
  simp only [hch]
  rw [if_pos hk]
  unfold sync_accounts_loop
  rfl

theorem tick_single_caught (c : Crypto) (ledger : LedgerDB) (s : WalletState)
    (a : Account) (d : DepositMap)
    (hnf : ledger.num_blocks_fault = false)
    (hnz : ledger.blocks.length ≠ 0)
    (hlist : s.list_all_fault = false)
    (haccs : s.accounts = [a])
    (hcaught : a.next_block_index > ledger.blocks.length - 1) :
    sync_all_accounts c ledger s d =
      ((if a.resyncing = true then Account.update_resyncing s a.id false else s),
       DepositMap.and_modify_true d a.id, TickOutcome.ok) := by
  unfold sync_all_accounts
  have h1 : ledger.num_blocks = .ok ledger.blocks.length := by
    unfold LedgerDB.num_blocks; simp [hnf]
  simp only [h1]
  rw [if_neg hnz]
  have h2 : Account.list_all s = .ok [a] := by
    unfold Account.list_all; simp [hlist, haccs]
  simp only [h2]
  unfold sync_accounts_loop
  rw [if_pos hcaught]
  unfold sync_accounts_loop
  rfl

/-- Claim C2: when the per-chunk transaction reloads the account and the
row is gone, the call is claimed to return 0 rather than an error. The code
instead propagates the NotFound error through the question-mark operator:
on a store with no account under the requested id,
`sync_account_next_chunk` returns the database NotFound error, not Ok(0). -/
theorem claim_C2_account_notfound_propagates :
    sync_account_next_chunk cToy ledgerOneOut sToy "zz"
      = .error (.database .notFound) ∧
    ∀ s1 : WalletState,
      sync_account_next_chunk cToy ledgerOneOut sToy "zz" ≠ .ok (s1, 0) := by
  constructor
  · decide
  · intro s1 hcon
    rw [show sync_account_next_chunk cToy ledgerOneOut sToy "zz"
      = .error (.database .notFound) from by decide] at hcon
    cases hcon

/-- Claim C3, counterexample: running one chunk over a one-block ledger for
a resyncing account commits `next_block_index = 1` with `1 ≥ num_blocks`,
yet the resyncing flag is still true after the chunk transaction: the flag
is not cleared inside the chunk transaction that sets the cursor. -/
theorem claim_C3_counterexample :
    (sync_account_next_chunk cToy ledgerOneBlock sResync "a1").toOption.map
        (fun p => (nextOf p.1 "a1", resyncingOf p.1 "a1"))
      = some (some 1, some true) ∧
    ledgerOneBlock.blocks.length ≤ 1 := by
  constructor
  · decide
  · decide

/-- Claim C3, amended: the resyncing flag is cleared by `sync_all_accounts`
in a separate operation, on a tick that observes the account already caught
up (`next_block_index > num_blocks - 1`); `sync_account_next_chunk` itself
never changes the resyncing flag of any account. -/
theorem claim_C3_resync_cleared_in_tick (c : Crypto) (ledger : LedgerDB)
    (s : WalletState) (a : Account) (d : DepositMap)
    (hnf : ledger.num_blocks_fault = false)
    (hnz : ledger.blocks.length ≠ 0)
    (hlist : s.list_all_fault = false)
    (haccs : s.accounts = [a])
    (hcaught : a.next_block_index > ledger.blocks.length - 1)
    (hres : a.resyncing = true) :
    resyncingOf (sync_all_accounts c ledger s d).1 a.id = some false ∧
    (∀ (ledger2 : LedgerDB) (s0 s1 : WalletState) (k : Nat),
        sync_account_next_chunk c ledger2 s0 a.id = .ok (s1, k) →
        ∀ x, resyncingOf s1 x = resyncingOf s0 x) := by
  constructor
  · rw [tick_single_caught c ledger s a d hnf hnz hlist haccs hcaught]
    rw [if_pos hres]
    unfold resyncingOf Account.update_resyncing
    rw [haccs]
    simp
  · intro ledger2 s0 s1 k hch x
    exact (chunk_ok_nextOf c ledger2 s0 a.id s1 k hch).1 x

/-- Witness for claim C3's amended theorem at a concrete caught-up
resyncing account. -/
theorem claim_C3_witness :
    resyncingOf (sync_all_accounts cToy ledgerOneBlock sCaughtRe []).1 "a1" = some false :=
  (claim_C3_resync_cleared_in_tick cToy ledgerOneBlock sCaughtRe aCaughtRe []
    (by decide) (by decide) (by decide) (by decide) (by decide) (by decide)).1

/-- Claim C4, counterexample: after a chunk ending at block 0 commits
(cursor set to 1), the pending TransactionLog with
`tombstone_block_index = 1 = end + 1` is still pending, not failed: the
sweep fails only tombstones strictly below end + 1. -/
theorem claim_C4_counterexample :
    (sync_account_next_chunk cToy ledgerOneBlock sPendingLog "a1").toOption.map
        (fun p => (nextOf p.1 "a1",
          p.1.tx_logs.map (fun lg => (lg.tombstone_block_index, lg.status))))
      = some (some 1, [(1, TxStatus.pending)]) := by
  decide

/-- Claim C7: the dispatcher builds a POST to the configured URL whose JSON
body has exactly the fields accounts and restart, but the request carries
no headers at all: the header map with Content-Type application/json is
built (json_headers) and never attached to the request. -/
theorem claim_C7_webhook_request_headers :
    (webhook_iteration "https://hook.example" [("a1", true)] false).2
      = some { is_post := true, url := "https://hook.example", headers := []
               body := Json.obj [("accounts", Json.arr [Json.str "a1"]),
                                 ("restart", Json.jbool false)] } ∧
    json_headers = [("Content-Type", "application/json")] ∧
    json_headers ≠ [] := by
  refine ⟨rfl, rfl, ?_⟩
  decide

/-- Claim C8, counterexample: a ledger whose `num_blocks()` fails makes
`sync_all_accounts` panic (the source calls `.expect`), terminating the
worker thread instead of returning or logging the error. -/
theorem claim_C8_counterexample :
    sync_all_accounts cToy ledgerCrash sToy [] = (sToy, [], TickOutcome.crash) := by
  decide

/-- Claim C8, amended: as long as `ledger.num_blocks()` and
`Account::list_all` succeed, no error observed during a tick panics:
ledger-read failures inside a chunk and per-account sync failures surface
as a returned error, never as a crash of the worker. A failing
`num_blocks()` or `list_all`, however, panics (see the counterexample). -/
theorem claim_C8_no_crash_without_expect_failures (c : Crypto) (ledger : LedgerDB)
    (s : WalletState) (d : DepositMap)
    (hnf : ledger.num_blocks_fault = false)
    (hlist : s.list_all_fault = false) :
    (sync_all_accounts c ledger s d).2.2 ≠ TickOutcome.crash := by
  unfold sync_all_accounts
  have h1 : ledger.num_blocks = .ok ledger.blocks.length := by
    unfold LedgerDB.num_blocks; simp [hnf]
  simp only [h1]
  by_cases h0 : ledger.blocks.length = 0
  · rw [if_pos h0]; intro hcon; cases hcon
  · rw [if_neg h0]
    have h2 : Account.list_all s = .ok s.accounts := by
      unfold Account.list_all; simp [hlist]
    simp only [h2]
    exact loop_no_crash c ledger ledger.blocks.length s.accounts s d

/-- Witness for claim C8's amended theorem at a concrete fault-free tick. -/
theorem claim_C8_witness :
    (sync_all_accounts cToy ledgerOneOut sToy []).2.2 ≠ TickOutcome.crash :=
  claim_C8_no_crash_without_expect_failures cToy ledgerOneOut sToy []
    (by decide) (by decide)

/-- Claim C9: when a chunk for the (sole) account returns more than zero
received Txos, `sync_all_accounts` inserts account id → false into the
Deposit Set unconditionally: an entry already promoted to true is demoted
back to false. -/
theorem claim_C9_insert_false_overwrites (c : Crypto) (ledger : LedgerDB)
    (s : WalletState) (a : Account) (d : DepositMap)
    (hnf : ledger.num_blocks_fault = false)
    (hnz : ledger.blocks.length ≠ 0)
    (hlist : s.list_all_fault = false)
    (haccs : s.accounts = [a])
    (hbehind : ¬ a.next_block_index > ledger.blocks.length - 1)
    (s1 : WalletState) (k : Nat)
    (hch : sync_account_next_chunk c ledger s a.id = .ok (s1, k)) (hk : 0 < k)
    (hprev : DepositMap.lookup d a.id = some true) :
    DepositMap.lookup (sync_all_accounts c ledger s d).2.1 a.id = some false := by
  rw [tick_single_behind c ledger s a d hnf hnz hlist haccs hbehind s1 k hch hk]
  exact depositMap_lookup_insert_self d a.id false

/-- Witness for claim C9 at a concrete deposit-bearing chunk over an entry
already promoted to true. -/
theorem claim_C9_witness :
    DepositMap.lookup (sync_all_accounts cToy ledgerOneOut sToy [("a1", true)]).2.1 "a1"
      = some false :=
  claim_C9_insert_false_overwrites cToy ledgerOneOut sToy aToy [("a1", true)]
    (by decide) (by decide) (by decide) (by decide) (by decide)
    sAfterReceive 1 (by decide) (by decide) (by decide)

/-- Claim C10: `decode_subaddress_index` maps every error of the subaddress
lookup to None, NotFound and transient database failures alike; an output
whose lookup fails transiently is committed as orphaned
(`subaddress_index = none`) by a chunk that still succeeds, rather than
aborting the chunk. The concrete run uses a store that does hold the
matching assigned subaddress, with a transient lookup fault injected. -/
theorem claim_C10_lookup_error_orphans :
    (∀ (c : Crypto) (t : TxOut) (vk : Nat) (s : WalletState) (e : WalletDbError),
        s.subaddress_lookup_fault = some e →
        decode_subaddress_index c t vk s = none) ∧
    (sync_account_next_chunk cToy ledgerOneOut sFaulty "a1").toOption.map
        (fun p => (p.2, p.1.txos.map (fun t => (t.id, t.subaddress_index, txoStatus t))))
      = some (1, [(oToy, none, TxoStatus.orphaned)]) := by
  constructor
  · intro c t vk s e he
    unfold decode_subaddress_index
    cases h1 : ristrettoTryFrom t.public_key with
    | none => rfl
    | some pk =>
      cases h2 : ristrettoTryFrom t.target_key with
      | none => rfl
      | some tk =>
        unfold AssignedSubaddress.find_by_subaddress_spend_public_key
        rw [he]
  · decide

/-- Witness for claim C10's universally quantified component at a concrete
faulted store. -/
theorem claim_C10_witness :
    decode_subaddress_index cToy oToy 5 sFaulty = none :=
  claim_C10_lookup_error_orphans.1 cToy oToy 5 sFaulty .diesel rfl

/-- Claim C1, counterexample: an output to a known subaddress received in
block 0 whose key image appears in block 1 of the same chunk is recorded
with the right block and value but with status spent, not unspent: the
spend phase of the same chunk marks the freshly created Txo. -/
theorem claim_C1_counterexample :
    decode_amount cToy oToy keyToy.view_private_key = some { value := 100, token_id := 0 } ∧
    decode_subaddress_index cToy oToy keyToy.view_private_key sToy = some 7 ∧
    (sync_account_next_chunk cToy ledgerReceiveSpend sToy "a1").toOption.map
        (fun p => (p.2, p.1.txos.map (fun t =>
          (t.id, t.received_block_index, t.value, txoStatus t))))
      = some (1, [(oToy, 0, 100, TxoStatus.spent)]) ∧
    TxoStatus.spent ≠ TxoStatus.unspent := by
  refine ⟨?_, ?_, ?_, ?_⟩ <;> decide

/-- Claim C5: per account, the sync cursor never decreases across any
sequence of ticks, and a committed chunk either leaves the store untouched
(no block read) or sets the cursor to end + 1 for some end at least the
cursor read at the start of the chunk. -/
theorem claim_C5_next_block_monotone (c : Crypto) (ledgers : List LedgerDB)
    (s : WalletState) (d : DepositMap) (x : String) (v : Nat)
    (hv : nextOf s x = some v) :
    (∃ w, nextOf (run_ticks c ledgers s d).1 x = some w ∧ v ≤ w) ∧
    (∀ (ledger : LedgerDB) (s0 s1 : WalletState) (k : Nat),
        sync_account_next_chunk c ledger s0 x = .ok (s1, k) →
        s1 = s0 ∨ ∃ st e2, nextOf s0 x = some st ∧ st ≤ e2 ∧
          nextOf s1 x = some (e2 + 1)) := by
  constructor
  · exact run_ticks_nextOf_forward c ledgers s d x v hv
  · intro ledger s0 s1 k hch
    exact (chunk_ok_nextOf c ledger s0 x s1 k hch).2.2

/-- Witness for claim C5 over one concrete tick that advances the cursor
from 0 to 1. -/
theorem claim_C5_witness :
    ∃ w, nextOf (run_ticks cToy [ledgerOneOut] sToy []).1 "a1" = some w ∧ 0 ≤ w :=
  (claim_C5_next_block_monotone cToy [ledgerOneOut] sToy [] "a1" 0 (by decide)).1

/-- Claim C6: one dispatcher iteration over Deposit Set state S posts
exactly the keys of S holding true (none when there are none), with the
two-field JSON body, and afterwards exactly those keys are gone from the
Deposit Set while false entries keep their values. -/
theorem claim_C6_webhook_drain (u : String) (d : DepositMap) (r : Bool)
    (hnd : (d.map Prod.fst).Nodup) :
    (∀ k, k ∈ accounts_to_send d ↔ DepositMap.lookup d k = some true) ∧
    ((webhook_iteration u d r).2 = none ↔ accounts_to_send d = []) ∧
    (∀ rq, (webhook_iteration u d r).2 = some rq →
        rq.is_post = true ∧ rq.url = u ∧ rq.headers = [] ∧
        rq.body = Json.obj [("accounts", Json.arr ((accounts_to_send d).map Json.str)),
                            ("restart", Json.jbool r)]) ∧
    (∀ k, DepositMap.lookup (webhook_iteration u d r).1 k =
        if DepositMap.lookup d k = some true then none else DepositMap.lookup d k) := by
  refine ⟨fun k => mem_accounts_to_send k d hnd, ?_, ?_, ?_⟩
  · unfold webhook_iteration
    dsimp only
    by_cases h : (accounts_to_send d).length > 0
    · rw [if_pos h]
      constructor
      · intro hcon; cases hcon
      · intro hnil; rw [hnil] at h; cases h
    · rw [if_neg h]
      have hlen := List.length_eq_zero.mp (by omega : (accounts_to_send d).length = 0)
      exact ⟨fun _ => hlen, fun _ => rfl⟩
  · intro rq hrq
    unfold webhook_iteration at hrq
    dsimp only at hrq
    by_cases h : (accounts_to_send d).length > 0
    · rw [if_pos h] at hrq
      have := Option.some.inj hrq
      subst this
      exact ⟨rfl, rfl, rfl, rfl⟩
    · rw [if_neg h] at hrq
      cases hrq
  · intro k
    show DepositMap.lookup ((accounts_to_send d).foldl DepositMap.remove d) k = _
    rw [depositMap_lookup_foldl_remove]
    by_cases hmem : k ∈ accounts_to_send d
    · rw [if_pos hmem, if_pos ((mem_accounts_to_send k d hnd).mp hmem)]
    · rw [if_neg hmem,
        if_neg (fun hl => hmem ((mem_accounts_to_send k d hnd).mpr hl))]

/-- Witness for claim C6 at a concrete Deposit Set holding one true and one
false entry. -/
theorem claim_C6_witness :
    DepositMap.lookup (webhook_iteration "u" [("a1", true), ("b2", false)] false).1 "a1"
        = none ∧
    DepositMap.lookup (webhook_iteration "u" [("a1", true), ("b2", false)] false).1 "b2"
        = some false := by
  have h := claim_C6_webhook_drain "u" [("a1", true), ("b2", false)] false (by decide)
  constructor
  · rw [h.2.2.2 "a1"]; decide
  · rw [h.2.2.2 "b2"]; decide

/-- Claim C4, amended: after a chunk that changed the store commits, the
cursor reads end + 1 for some end, every log pending before the chunk with
tombstone below end + 1 ends failed (or succeeded, when the chunk's spend
phase settled it first), and no log pending before the chunk with
tombstone at least end + 1 is failed. The original bound, tombstone at most
end + 1, fails at tombstone = end + 1 (see the counterexample). -/
theorem claim_C4_tombstone_sweep_bound (c : Crypto) (ledger : LedgerDB)
    (s : WalletState) (aid : String) (s2 : WalletState) (n : Nat)
    (h : sync_account_next_chunk c ledger s aid = .ok (s2, n)) (hne : s2 ≠ s) :
    ∃ e, nextOf s2 aid = some (e + 1) ∧
      List.Forall₂ (fun lg lg2 =>
        lg.status = TxStatus.pending →
          (lg.tombstone_block_index < e + 1 →
            lg2.status = TxStatus.failed ∨ lg2.status = TxStatus.succeeded) ∧
          (e + 1 ≤ lg.tombstone_block_index → lg2.status ≠ TxStatus.failed))
        s.tx_logs s2.tx_logs := by
  rcases chunk_ok_cases c ledger s aid s2 n h with ⟨hs, _⟩ | ⟨account, e, hget, hle, haccs, hlogs⟩
  · exact absurd hs hne
  · refine ⟨e, ?_, ?_⟩
    · have hupd : s2.accounts = (Account.update_next_block_index s aid (e + 1)).accounts := haccs
      have hfind := (account_get_ok_iff aid s account).mp hget
      rw [nextOf_congr s2 (Account.update_next_block_index s aid (e + 1)) hupd aid,
        nextOf_update_next,
        show nextOf s aid = some account.next_block_index from by
          unfold nextOf; rw [hfind]; rfl]
      simp
    · exact List.Forall₂.imp (fun a b hab => hab.2) hlogs

/-- Witness for claim C4's amended theorem: a one-block chunk over a store
holding one pending log with tombstone exactly end + 1. -/
theorem claim_C4_witness :
    ∃ e, nextOf sAfterOneBlockLog "a1" = some (e + 1) ∧
      List.Forall₂ (fun lg lg2 =>
        lg.status = TxStatus.pending →
          (lg.tombstone_block_index < e + 1 →
            lg2.status = TxStatus.failed ∨ lg2.status = TxStatus.succeeded) ∧
          (e + 1 ≤ lg.tombstone_block_index → lg2.status ≠ TxStatus.failed))
        sPendingLog.tx_logs sAfterOneBlockLog.tx_logs :=
  claim_C4_tombstone_sweep_bound cToy ledgerOneBlock sPendingLog "a1"
    sAfterOneBlockLog 0 (by decide) (by decide)

theorem load_chunk_no_fault (ledger : LedgerDB) (hf : ledger.read_fault = none) :
    ∀ (fuel start : Nat), ∃ eo outs kis,
      load_chunk ledger start fuel = .ok (eo, outs, kis) ∧
      (∀ b o2, (b, o2) ∈ outs ↔
        start ≤ b ∧ b < start + fuel ∧ b < ledger.blocks.length ∧
          o2 ∈ (ledger.blockAt b).outputs) ∧
      (∀ b k2, (b, k2) ∈ kis ↔
        start ≤ b ∧ b < start + fuel ∧ b < ledger.blocks.length ∧
          k2 ∈ (ledger.blockAt b).key_images) ∧
      (eo = none ↔ fuel = 0 ∨ ledger.blocks.length ≤ start) := by
  intro fuel
  induction fuel with
  | zero =>
    intro start
    refine ⟨none, [], [], rfl, ?_, ?_, by simp⟩
    · intro b o2
      simp only [List.not_mem_nil, false_iff]
      rintro ⟨h1, h2, _, _⟩
      omega
    · intro b k2
      simp only [List.not_mem_nil, false_iff]
      rintro ⟨h1, h2, _, _⟩
      omega
  | succ fuel ih =>
    intro start
    rcases ih (start + 1) with ⟨eo1, outs1, kis1, heq, hmo, hmk, hnone⟩
    by_cases hlen : start < ledger.blocks.length
    · have hbc : ledger.blocks[start]? = some (ledger.blockAt start) := by
        unfold LedgerDB.blockAt
        rw [List.getElem?_eq_getElem hlen]
        rfl
      have hget : ledger.get_block_contents start = .ok (ledger.blockAt start) := by
        unfold LedgerDB.get_block_contents
        rw [hf]
        simp [hbc]
      refine ⟨some (eo1.getD start),
        (ledger.blockAt start).outputs.map (fun t => (start, t)) ++ outs1,
        (ledger.blockAt start).key_images.map (fun k2 => (start, k2)) ++ kis1,
        ?_, ?_, ?_, ?_⟩
      · simp only [load_chunk, hget, heq]
      · intro b o2
        rw [List.mem_append, List.mem_map]
        constructor
        · rintro (⟨t, ht, hte⟩ | hmem)
          · cases hte
            exact ⟨le_refl _, by omega, hlen, ht⟩
          · obtain ⟨h1, h2, h3, h4⟩ := (hmo b o2).mp hmem
            exact ⟨by omega, by omega, h3, h4⟩
        · rintro ⟨h1, h2, h3, h4⟩
          by_cases hb : b = start
          · subst hb
            exact Or.inl ⟨o2, h4, rfl⟩
          · exact Or.inr ((hmo b o2).mpr ⟨by omega, by omega, h3, h4⟩)
      · intro b k2
        rw [List.mem_append, List.mem_map]
        constructor
        · rintro (⟨t, ht, hte⟩ | hmem)
          · cases hte
            exact ⟨le_refl _, by omega, hlen, ht⟩
          · obtain ⟨h1, h2, h3, h4⟩ := (hmk b k2).mp hmem
            exact ⟨by omega, by omega, h3, h4⟩
        · rintro ⟨h1, h2, h3, h4⟩
          by_cases hb : b = start
          · subst hb
            exact Or.inl ⟨k2, h4, rfl⟩
          · exact Or.inr ((hmk b k2).mpr ⟨by omega, by omega, h3, h4⟩)
      · constructor
        · intro hcon; cases hcon
        · rintro (hcon | hcon) <;> omega
    · have hnil : ledger.blocks[start]? = none := by
        rw [List.getElem?_eq_none]
        omega
      have hget : ledger.get_block_contents start = .error .notFound := by
        unfold LedgerDB.get_block_contents
        rw [hf]
        simp [hnil]
      refine ⟨none, [], [], by simp only [load_chunk, hget], ?_, ?_, ?_⟩
      · intro b o2
        simp only [List.not_mem_nil, false_iff]
        rintro ⟨h1, _, h3, _⟩
        omega
      · intro b k2
        simp only [List.not_mem_nil, false_iff]
        rintro ⟨h1, _, h3, _⟩
        omega
      · constructor
        · intro _; right; omega
        · intro _; rfl

theorem create_absent_other (s : WalletState) (tx : TxOut) (sub ki : Option Nat)
    (am : Amount) (bi : Nat) (aid : String) (o : TxOut)
    (h : ∀ t ∈ s.txos, t.id ≠ o) (hne : tx ≠ o) :
    ∀ t ∈ (Txo.create_received s tx sub ki am bi aid).txos, t.id ≠ o := by
  intro t ht
  unfold Txo.create_received at ht
  split at ht
  · dsimp only at ht
    obtain ⟨t0, ht0, hte⟩ := List.mem_map.mp ht
    have hid0 : t.id = t0.id := by rw [← hte]; split <;> rfl
    rw [hid0]
    exact h t0 ht0
  · dsimp only at ht
    rcases List.mem_append.mp ht with hmem | hmem
    · exact h t hmem
    · rw [List.mem_singleton.mp hmem]
      exact hne

theorem create_absent_canonical (s : WalletState) (o : TxOut) (aid : String)
    (am : Amount) (sub ki : Option Nat) (bi : Nat)
    (h : ∀ t ∈ s.txos, t.id ≠ o) :
    mkReceivedTxo o aid am sub ki bi ∈ (Txo.create_received s o sub ki am bi aid).txos ∧
    ∀ t ∈ (Txo.create_received s o sub ki am bi aid).txos, t.id = o →
      t = mkReceivedTxo o aid am sub ki bi := by
  have hany : s.txos.any (fun t => t.id == o) = false := by
    rw [List.any_eq_false]
    intro t ht
    simp only [beq_iff_eq]
    exact h t ht
  unfold Txo.create_received
  rw [if_neg (by simp [hany])]
  constructor
  · exact List.mem_append.mpr (Or.inr (List.mem_singleton.mpr rfl))
  · intro t ht hid
    rcases List.mem_append.mp ht with hmem | hmem
    · exact absurd hid (h t hmem)
    · exact List.mem_singleton.mp hmem

theorem create_present_other (s : WalletState) (tx : TxOut) (sub ki : Option Nat)
    (am : Amount) (bi : Nat) (aid : String) (o : TxOut) (T : Txo)
    (hTid : T.id = o)
    (hP1 : T ∈ s.txos) (hP2 : ∀ t ∈ s.txos, t.id = o → t = T) (hne : tx ≠ o) :
    T ∈ (Txo.create_received s tx sub ki am bi aid).txos ∧
    ∀ t ∈ (Txo.create_received s tx sub ki am bi aid).txos, t.id = o → t = T := by
  have hTne : ¬ T.id = tx := by
    intro hcon
    exact hne (by rw [← hcon, hTid])
  unfold Txo.create_received
  split
  · constructor
    · exact List.mem_map.mpr ⟨T, hP1, by rw [if_neg hTne]⟩
    · intro t ht hid
      dsimp only at ht
      obtain ⟨t0, ht0, hte⟩ := List.mem_map.mp ht
      have hid0 : t.id = t0.id := by rw [← hte]; split <;> rfl
      have ht0T : t0 = T := hP2 t0 ht0 (by rw [← hid0]; exact hid)
      subst ht0T
      rw [← hte, if_neg hTne]
  · constructor
    · exact List.mem_append.mpr (Or.inl hP1)
    · intro t ht hid
      dsimp only at ht
      rcases List.mem_append.mp ht with hmem | hmem
      · exact hP2 t hmem hid
      · rw [List.mem_singleton.mp hmem] at hid
        exact absurd hid hne

theorem create_present_canonical (s : WalletState) (o : TxOut) (aid : String)
    (am : Amount) (sub ki : Option Nat) (bi : Nat) (T : Txo)
    (hT : T = mkReceivedTxo o aid am sub ki bi)
    (hP1 : T ∈ s.txos) (hP2 : ∀ t ∈ s.txos, t.id = o → t = T) :
    T ∈ (Txo.create_received s o sub ki am bi aid).txos ∧
    ∀ t ∈ (Txo.create_received s o sub ki am bi aid).txos, t.id = o → t = T := by
  have hTid : T.id = o := by rw [hT]; rfl
  have hany : s.txos.any (fun t => t.id == o) = true := by
    rw [List.any_eq_true]
    exact ⟨T, hP1, by simp [beq_iff_eq, hTid]⟩
  unfold Txo.create_received
  rw [if_pos hany]
  constructor
  · refine List.mem_map.mpr ⟨T, hP1, ?_⟩
    rw [if_pos hTid]
    subst hT
    rfl
  · intro t ht hid
    obtain ⟨t0, ht0, hte⟩ := List.mem_map.mp ht
    by_cases h0 : t0.id = o
    · have ht0T : t0 = T := hP2 t0 ht0 h0
      subst ht0T
      rw [← hte, if_pos hTid]
      subst hT
      rfl
    · have htt0 : t = t0 := by rw [← hte, if_neg h0]
      subst htt0
      exact absurd hid h0

theorem create_fold_preserves {α : Type} (tx : α → TxOut) (sub ki : α → Option Nat)
    (am : α → Amount) (bi : α → Nat) (aid : String) (o : TxOut) (T : Txo)
    (hTid : T.id = o) :
    ∀ (L : List α),
      (∀ x ∈ L, tx x = o → T = mkReceivedTxo o aid (am x) (sub x) (ki x) (bi x)) →
      ∀ s : WalletState,
      T ∈ s.txos → (∀ t ∈ s.txos, t.id = o → t = T) →
      T ∈ (L.foldl (fun st x =>
          Txo.create_received st (tx x) (sub x) (ki x) (am x) (bi x) aid) s).txos ∧
      ∀ t ∈ (L.foldl (fun st x =>
          Txo.create_received st (tx x) (sub x) (ki x) (am x) (bi x) aid) s).txos,
        t.id = o → t = T := by
  intro L
  induction L with
  | nil => intro _ s h1 h2; exact ⟨h1, h2⟩
  | cons x L ih =>
    intro hmk s h1 h2
    rw [List.foldl_cons]
    by_cases hx : tx x = o
    · rw [hx]
      have hstep := create_present_canonical s o aid (am x) (sub x) (ki x) (bi x) T
        (hmk x (List.mem_cons_self x L) hx) h1 h2
      exact ih (fun y hy hyo => hmk y (List.mem_cons_of_mem x hy) hyo) _ hstep.1 hstep.2
    · have hstep := create_present_other s (tx x) (sub x) (ki x) (am x) (bi x) aid o T
        hTid h1 h2 hx
      exact ih (fun y hy hyo => hmk y (List.mem_cons_of_mem x hy) hyo) _ hstep.1 hstep.2

theorem create_fold_canonical {α : Type} (tx : α → TxOut) (sub ki : α → Option Nat)
    (am : α → Amount) (bi : α → Nat) (aid : String) (o : TxOut) (x0 : α) :
    ∀ (L : List α) (s : WalletState),
      x0 ∈ L → tx x0 = o →
      (∀ x ∈ L, tx x = o →
        am x = am x0 ∧ sub x = sub x0 ∧ ki x = ki x0 ∧ bi x = bi x0) →
      (∀ t ∈ s.txos, t.id ≠ o) →
      mkReceivedTxo o aid (am x0) (sub x0) (ki x0) (bi x0) ∈
        (L.foldl (fun st x =>
          Txo.create_received st (tx x) (sub x) (ki x) (am x) (bi x) aid) s).txos ∧
      ∀ t ∈ (L.foldl (fun st x =>
          Txo.create_received st (tx x) (sub x) (ki x) (am x) (bi x) aid) s).txos,
        t.id = o → t = mkReceivedTxo o aid (am x0) (sub x0) (ki x0) (bi x0) := by
  intro L
  induction L with
  | nil => intro s hx0; cases hx0
  | cons y L ih =>
    intro s hx0 htx0 hcanon hfresh
    rw [List.foldl_cons]
    by_cases hy : tx y = o
    · obtain ⟨ha, hs2, hk2, hb2⟩ := hcanon y (List.mem_cons_self y L) hy
      rw [hy, ha, hs2, hk2, hb2]
      have hstep := create_absent_canonical s o aid (am x0) (sub x0) (ki x0) (bi x0) hfresh
      refine create_fold_preserves tx sub ki am bi aid o
        (mkReceivedTxo o aid (am x0) (sub x0) (ki x0) (bi x0)) rfl L
        ?_ _ hstep.1 hstep.2
      intro x hx hxo
      obtain ⟨ha3, hs3, hk3, hb3⟩ := hcanon x (List.mem_cons_of_mem y hx) hxo
      rw [ha3, hs3, hk3, hb3]
    · have hfresh2 := create_absent_other s (tx y) (sub y) (ki y) (am y) (bi y) aid o hfresh hy
      have hx0L : x0 ∈ L := by
        rcases List.mem_cons.mp hx0 with hh | hh
        · subst hh; exact absurd htx0 hy
        · exact hh
      exact ih _ hx0L htx0
        (fun x hx hxo => hcanon x (List.mem_cons_of_mem y hx) hxo) hfresh2

theorem spend_fold_preserves_txo (o : TxOut) (T : Txo) (hTid : T.id = o) :
    ∀ (L : List (Nat × TxOut)) (s : WalletState),
      (∀ p ∈ L, p.2 ≠ o) →
      T ∈ s.txos → (∀ t ∈ s.txos, t.id = o → t = T) →
      T ∈ (L.foldl (fun st bt =>
          TransactionLog.update_pending_associated_with_txo_to_succeeded
            (Txo.update_spent_block_index st bt.2 bt.1) bt.2 bt.1) s).txos ∧
      ∀ t ∈ (L.foldl (fun st bt =>
          TransactionLog.update_pending_associated_with_txo_to_succeeded
            (Txo.update_spent_block_index st bt.2 bt.1) bt.2 bt.1) s).txos,
        t.id = o → t = T := by
  intro L
  induction L with
  | nil => intro s _ h1 h2; exact ⟨h1, h2⟩
  | cons p L ih =>
    intro s hne h1 h2
    rw [List.foldl_cons]
    have hpne : p.2 ≠ o := hne p (List.mem_cons_self p L)
    have hTne : ¬ T.id = p.2 := by
      intro hcon
      exact hpne (by rw [← hcon, hTid])
    have hstep1 : T ∈ (TransactionLog.update_pending_associated_with_txo_to_succeeded
        (Txo.update_spent_block_index s p.2 p.1) p.2 p.1).txos := by
      rw [update_pending_assoc_txos]
      exact List.mem_map.mpr ⟨T, h1, by rw [if_neg hTne]⟩
    have hstep2 : ∀ t ∈ (TransactionLog.update_pending_associated_with_txo_to_succeeded
        (Txo.update_spent_block_index s p.2 p.1) p.2 p.1).txos, t.id = o → t = T := by
      rw [update_pending_assoc_txos]
      intro t ht hid
      obtain ⟨t0, ht0, hte⟩ := List.mem_map.mp ht
      have hid0 : t.id = t0.id := by rw [← hte]; split <;> rfl
      have ht0T : t0 = T := h2 t0 ht0 (by rw [← hid0]; exact hid)
      subst ht0T
      rw [← hte, if_neg hTne]
    exact ih _ (fun q hq => hne q (List.mem_cons_of_mem p hq)) hstep1 hstep2

theorem lookupKeyImage_mem (m : List (Nat × TxOut)) (k2 : Nat) (tid : TxOut)
    (h : lookupKeyImage m k2 = some tid) : (k2, tid) ∈ m := by
  unfold lookupKeyImage at h
  obtain ⟨q, hq, hqe⟩ := Option.map_eq_some'.mp h
  have hqk := List.find?_some hq
  have hqm := List.mem_of_find?_eq_some hq
  obtain ⟨q1, q2⟩ := q
  simp only [beq_iff_eq] at hqk
  dsimp only at hqe
  rw [← hqk, ← hqe]
  exact hqm

theorem list_unspent_mem (s1 : WalletState) (aid : String) (k2 : Nat) (tid : TxOut)
    (h : (k2, tid) ∈ Txo.list_unspent_or_pending_key_images s1 aid) :
    ∃ t ∈ s1.txos, t.id = tid ∧ t.key_image = some k2 := by
  unfold Txo.list_unspent_or_pending_key_images at h
  obtain ⟨t, ht, hte⟩ := List.mem_filterMap.mp h
  by_cases hc : t.account_id = aid ∧ t.spent_block_index = none
  · rw [if_pos hc] at hte
    obtain ⟨ki2, hki2, hki2e⟩ := Option.map_eq_some'.mp hte
    have h1 : ki2 = k2 := congrArg Prod.fst hki2e
    have h2 : t.id = tid := congrArg Prod.snd hki2e
    exact ⟨t, ht, h2, by rw [hki2, h1]⟩
  · rw [if_neg hc] at hte
    cases hte

theorem decode_amount_parses (c : Crypto) (o : TxOut) (vk : Nat) (am : Amount)
    (h : decode_amount c o vk = some am) :
    ∃ pk, ristrettoTryFrom o.public_key = some pk := by
  unfold decode_amount at h
  cases hp : ristrettoTryFrom o.public_key with
  | none => rw [hp] at h; cases h
  | some pk => exact ⟨pk, rfl⟩

theorem decode_ski_eq (c : Crypto) (o : TxOut) (key : AccountKey) (s : WalletState)
    (idx pk : Nat)
    (hpk : ristrettoTryFrom o.public_key = some pk)
    (hsub : decode_subaddress_index c o key.view_private_key s = some idx) :
    decode_subaddress_and_key_image c o key s =
      (some idx, some (c.keyImage (c.recoverOnetime pk key.view_private_key
        (c.subaddressSpendPrivate key.spend_seed idx)))) := by
  unfold decode_subaddress_and_key_image
  simp only [hpk, hsub]

theorem spent_list_ne (s1 : WalletState) (aid : String) (kis : List (Nat × Nat))
    (o : TxOut) (T : Txo) (hTid : T.id = o)
    (hTki : ∀ p ∈ kis, T.key_image ≠ some p.2)
    (hP2 : ∀ t ∈ s1.txos, t.id = o → t = T) :
    ∀ p ∈ kis.filterMap (fun bk =>
        (lookupKeyImage (Txo.list_unspent_or_pending_key_images s1 aid) bk.2).map
          (fun tid => (bk.1, tid))), p.2 ≠ o := by
  intro p hp hpo
  obtain ⟨bk, hbk, hbke⟩ := List.mem_filterMap.mp hp
  obtain ⟨tid, htid, htide⟩ := Option.map_eq_some'.mp hbke
  have htidp : tid = p.2 := congrArg Prod.snd htide
  rw [htidp, hpo] at htid
  obtain ⟨t, ht, htido, htki⟩ :=
    list_unspent_mem s1 aid bk.2 o (lookupKeyImage_mem _ _ _ htid)
  have htT : t = T := hP2 t ht htido
  subst htT
  exact hTki bk hbk (by rw [← htki])

/-- Claim C1, amended: for an output addressed to a recorded subaddress of
account a in block B of the chunk, provided the output is new to the wallet
and no key image in the chunk matches the key image the chunk derives for
it, the committed chunk stores a Txo with received_block_index = B, the
decoded value, the matched subaddress, and status unspent. The original
claim without the key-image proviso fails: a key image later in the same
chunk flips the fresh Txo to spent (see the counterexample). -/
theorem claim_C1_roundtrip_unspent (c : Crypto) (ledger : LedgerDB) (s : WalletState)
    (a : Account) (B : Nat) (o : TxOut) (am : Amount) (idx : Nat)
    (hfault : ledger.read_fault = none)
    (hacc : Account.get a.id s = .ok a)
    (hdec : a.account_key.decodes = true)
    (hB : B < ledger.blocks.length)
    (hge : a.next_block_index ≤ B)
    (hlt : B < a.next_block_index + BLOCKS_CHUNK_SIZE)
    (ho : o ∈ (ledger.blockAt B).outputs)
    (hamount : decode_amount c o a.account_key.view_private_key = some am)
    (hsub : decode_subaddress_index c o a.account_key.view_private_key s = some idx)
    (huniq : ∀ i, i < ledger.blocks.length → i ≠ B → o ∉ (ledger.blockAt i).outputs)
    (hfresh : ∀ t ∈ s.txos, t.id ≠ o)
    (hki : ∀ i, i < ledger.blocks.length → ∀ kk ∈ (ledger.blockAt i).key_images,
        txKeyImage c a o s ≠ some kk) :
    ∃ s2 n, sync_account_next_chunk c ledger s a.id = .ok (s2, n) ∧
      ∃ t ∈ s2.txos, t.id = o ∧ t.received_block_index = B ∧
        t.value = am.value ∧ t.subaddress_index = some idx ∧
        txoStatus t = TxoStatus.unspent := by
  obtain ⟨pk, hpk⟩ := decode_amount_parses c o a.account_key.view_private_key am hamount
  obtain ⟨eo, outs, kis, heq, hmo, hmk, hnone⟩ :=
    load_chunk_no_fault ledger hfault BLOCKS_CHUNK_SIZE a.next_block_index
  unfold sync_account_next_chunk
  simp only [hacc, heq]
  cases eo with
  | none =>
    exfalso
    rcases hnone.mp rfl with h1 | h1
    · exact absurd h1 (by decide)
    · omega
  | some e =>
  dsimp only
  cases hv : a.view_only with
  | true =>
    have hdk : decodeViewAccountKey a.account_key
        = .ok { view_private_key := a.account_key.view_private_key } := by
      unfold decodeViewAccountKey; simp [hdec]
    simp only [hdk]
    refine ⟨_, _, rfl, ?_⟩
    rw [update_next_txos, sweep_txos]
    have hx0mem : ((B, o, am, decode_subaddress_index c o a.account_key.view_private_key s) :
        Nat × TxOut × Amount × Option Nat) ∈
        (outs.filterMap (fun bt =>
          (decode_amount c bt.2 a.account_key.view_private_key).map
            (fun a2 => (bt.1, bt.2, a2)))).map (fun bta =>
          (bta.1, bta.2.1, bta.2.2,
            decode_subaddress_index c bta.2.1 a.account_key.view_private_key s)) := by
      refine List.mem_map.mpr ⟨(B, o, am), ?_, rfl⟩
      refine List.mem_filterMap.mpr ⟨(B, o), (hmo B o).mpr ⟨hge, hlt, hB, ho⟩, ?_⟩
      rw [hamount]
      rfl
    have hcanon : ∀ x ∈ (outs.filterMap (fun bt =>
          (decode_amount c bt.2 a.account_key.view_private_key).map
            (fun a2 => (bt.1, bt.2, a2)))).map (fun bta =>
          (bta.1, bta.2.1, bta.2.2,
            decode_subaddress_index c bta.2.1 a.account_key.view_private_key s)),
        x.2.1 = o →
        x.2.2.1 = am ∧
        x.2.2.2 = decode_subaddress_index c o a.account_key.view_private_key s ∧
        (none : Option Nat) = none ∧ x.1 = B := by
      intro x hx hxo
      obtain ⟨bta, hbta, hbtae⟩ := List.mem_map.mp hx
      obtain ⟨bt, hbt, hbte⟩ := List.mem_filterMap.mp hbta
      obtain ⟨a2, ha2, ha2e⟩ := Option.map_eq_some'.mp hbte
      subst hbtae
      subst ha2e
      dsimp only at hxo ⊢
      subst hxo
      obtain ⟨hb1, hb2, hb3, hb4⟩ := (hmo bt.1 bt.2).mp (by
        have : (bt.1, bt.2) = bt := rfl
        rw [this]; exact hbt)
      have hbtB : bt.1 = B := by
        by_contra hne2
        exact huniq bt.1 hb3 hne2 hb4
      rw [ha2] at hamount
      have ha2am : a2 = am := Option.some.inj hamount
      exact ⟨ha2am, rfl, rfl, hbtB⟩
    have hfold := create_fold_canonical
      (fun x : Nat × TxOut × Amount × Option Nat => x.2.1)
      (fun x => x.2.2.2) (fun _ => none) (fun x => x.2.2.1) (fun x => x.1)
      a.id o (B, o, am, decode_subaddress_index c o a.account_key.view_private_key s)
      _ s hx0mem rfl hcanon hfresh
    rw [hsub] at hfold
    have hTki : ∀ p ∈ kis,
        (mkReceivedTxo o a.id am (some idx) none B).key_image ≠ some p.2 := by
      intro p hp hcon
      cases hcon
    have hne := spent_list_ne _ a.id kis o (mkReceivedTxo o a.id am (some idx) none B)
      rfl hTki hfold.2
    have hspend := spend_fold_preserves_txo o (mkReceivedTxo o a.id am (some idx) none B)
      rfl _ _ hne hfold.1 hfold.2
    exact ⟨mkReceivedTxo o a.id am (some idx) none B, hspend.1, rfl, rfl, rfl, rfl, rfl⟩
  | false =>
    have hdk : decodeAccountKey a.account_key
        = .ok { view_private_key := a.account_key.view_private_key
                spend_seed := a.account_key.spend_seed } := by
      unfold decodeAccountKey; simp [hdec]
    simp only [hdk]
    refine ⟨_, _, rfl, ?_⟩
    rw [update_next_txos, sweep_txos]
    have hski := decode_ski_eq c o
      { view_private_key := a.account_key.view_private_key
        spend_seed := a.account_key.spend_seed } s idx pk hpk hsub
    have hx0mem : ((B, o, am, decode_subaddress_and_key_image c o
        { view_private_key := a.account_key.view_private_key
          spend_seed := a.account_key.spend_seed } s) :
        Nat × TxOut × Amount × (Option Nat × Option Nat)) ∈
        (outs.filterMap (fun bt =>
          (decode_amount c bt.2 a.account_key.view_private_key).map
            (fun a2 => (bt.1, bt.2, a2)))).map (fun bta =>
          (bta.1, bta.2.1, bta.2.2,
            decode_subaddress_and_key_image c bta.2.1
              { view_private_key := a.account_key.view_private_key
                spend_seed := a.account_key.spend_seed } s)) := by
      refine List.mem_map.mpr ⟨(B, o, am), ?_, rfl⟩
      refine List.mem_filterMap.mpr ⟨(B, o), (hmo B o).mpr ⟨hge, hlt, hB, ho⟩, ?_⟩
      rw [hamount]
      rfl
    have hcanon : ∀ x ∈ (outs.filterMap (fun bt =>
          (decode_amount c bt.2 a.account_key.view_private_key).map
            (fun a2 => (bt.1, bt.2, a2)))).map (fun bta =>
          (bta.1, bta.2.1, bta.2.2,
            decode_subaddress_and_key_image c bta.2.1
              { view_private_key := a.account_key.view_private_key
                spend_seed := a.account_key.spend_seed } s)),
        x.2.1 = o →
        x.2.2.1 = am ∧
        x.2.2.2.1 = (decode_subaddress_and_key_image c o
          { view_private_key := a.account_key.view_private_key
            spend_seed := a.account_key.spend_seed } s).1 ∧
        x.2.2.2.2 = (decode_subaddress_and_key_image c o
          { view_private_key := a.account_key.view_private_key
            spend_seed := a.account_key.spend_seed } s).2 ∧ x.1 = B := by
      intro x hx hxo
      obtain ⟨bta, hbta, hbtae⟩ := List.mem_map.mp hx
      obtain ⟨bt, hbt, hbte⟩ := List.mem_filterMap.mp hbta
      obtain ⟨a2, ha2, ha2e⟩ := Option.map_eq_some'.mp hbte
      subst hbtae
      subst ha2e
      dsimp only at hxo ⊢
      subst hxo
      obtain ⟨hb1, hb2, hb3, hb4⟩ := (hmo bt.1 bt.2).mp (by
        have : (bt.1, bt.2) = bt := rfl
        rw [this]; exact hbt)
      have hbtB : bt.1 = B := by
        by_contra hne2
        exact huniq bt.1 hb3 hne2 hb4
      rw [ha2] at hamount
      have ha2am : a2 = am := Option.some.inj hamount
      exact ⟨ha2am, rfl, rfl, hbtB⟩
    have hfold := create_fold_canonical
      (fun x : Nat × TxOut × Amount × (Option Nat × Option Nat) => x.2.1)
      (fun x => x.2.2.2.1) (fun x => x.2.2.2.2) (fun x => x.2.2.1) (fun x => x.1)
      a.id o (B, o, am, decode_subaddress_and_key_image c o
        { view_private_key := a.account_key.view_private_key
          spend_seed := a.account_key.spend_seed } s)
      _ s hx0mem rfl hcanon hfresh
    rw [hski] at hfold
    dsimp only at hfold
    have hTk : txKeyImage c a o s
        = some (c.keyImage (c.recoverOnetime pk a.account_key.view_private_key
            (c.subaddressSpendPrivate a.account_key.spend_seed idx))) := by
      unfold txKeyImage
      rw [hv]
      simp only [Bool.false_eq_true, if_false, hski]
    have hTki : ∀ p ∈ kis,
        (mkReceivedTxo o a.id am (some idx)
          (some (c.keyImage (c.recoverOnetime pk a.account_key.view_private_key
            (c.subaddressSpendPrivate a.account_key.spend_seed idx)))) B).key_image
          ≠ some p.2 := by
      intro p hp hcon
      obtain ⟨hk1, hk2, hk3, hk4⟩ := (hmk p.1 p.2).mp (by
        have : (p.1, p.2) = p := rfl
        rw [this]; exact hp)
      refine hki p.1 hk3 p.2 hk4 ?_
      rw [hTk]
      exact hcon
    have hne := spent_list_ne _ a.id kis o
      (mkReceivedTxo o a.id am (some idx)
        (some (c.keyImage (c.recoverOnetime pk a.account_key.view_private_key
          (c.subaddressSpendPrivate a.account_key.spend_seed idx)))) B)
      rfl hTki hfold.2
    have hspend := spend_fold_preserves_txo o
      (mkReceivedTxo o a.id am (some idx)
        (some (c.keyImage (c.recoverOnetime pk a.account_key.view_private_key
          (c.subaddressSpendPrivate a.account_key.spend_seed idx)))) B)
      rfl _ _ hne hfold.1 hfold.2
    exact ⟨_, hspend.1, rfl, rfl, rfl, rfl, rfl⟩

/-- Witness for claim C1's amended theorem: `oToy` delivered to `aToy` at
block 0 of a one-block ledger ends up as an unspent Txo with the decoded
value 100 at subaddress 7. -/
theorem claim_C1_witness :
    ∃ s2 n, sync_account_next_chunk cToy ledgerOneOut sToy aToy.id = .ok (s2, n) ∧
      ∃ t ∈ s2.txos, t.id = oToy ∧ t.received_block_index = 0 ∧
        t.value = 100 ∧ t.subaddress_index = some 7 ∧
        txoStatus t = TxoStatus.unspent :=
  claim_C1_roundtrip_unspent cToy ledgerOneOut sToy aToy 0 oToy
    { value := 100, token_id := 0 } 7 (by decide) (by decide) (by decide) (by decide)
    (by decide) (by decide) (by decide) (by decide) (by decide) (by decide)
    (by decide) (by decide)

end FullService
